import Mathlib

/-!
# Verification of the duplicate-detection scripts

Shallow embedding of the decision logic of three scripts:

* `script/github-check-new-issue-for-duplicates.py` — taxonomy matching
  (`areas_match`), catalog parsing (`parse_duplicate_magnets`), catalog
  filtering (`filter_magnets_by_areas`), similar-issue search merging
  (`search_for_similar_issues`) and candidate assembly (`analyze_duplicates`).
* `script/github-track-duplicate-bot-effectiveness.py` — the outcome
  classifier (`classify_closed` and its helpers) and the bot-version timeline
  lookup (`bot_version_for_time`).
* `script/github-find-top-duplicated-bugs.py` — the catalog generator
  (`build_markdown_body`).

Python strings are modelled as Lean `String` / `List Char`; the Python string
primitives used by the scripts (`split`, `strip`, `startswith`, …) are given
explicit executable models below.  External collaborators (GitHub REST /
GraphQL, the classification oracle) are modelled as explicit function
parameters; a network failure of a collaborator call is modelled as an
`Except.error` / `Option.none` input.
-/

/-- Characters treated as whitespace by Python `str.strip()`, `str.split()`
and the regex class `\s` (the ASCII whitespace characters; the scripts only
ever strip/split ASCII text). -/
def isSpacePy (c : Char) : Bool :=
  c == ' ' || c == '\t' || c == '\n' || c == '\r' || c == '\x0b' || c == '\x0c'

/-- Models Python `s.startswith(p)`. -/
def pyStartswith (s p : String) : Bool :=
  p.data.isPrefixOf s.data

/-- Models Python `s.strip()` (remove leading and trailing whitespace). -/
def pyStripChars (l : List Char) : List Char :=
  ((l.dropWhile isSpacePy).reverse.dropWhile isSpacePy).reverse

/-- Models Python `s.rstrip(")")` (remove trailing `)` characters). -/
def pyRstripParen (l : List Char) : List Char :=
  (l.reverse.dropWhile (fun c => c == ')')).reverse

/-- Models Python `s.split(sep)` restricted to the first separator: returns
`none` when `sep` does not occur in `l` (so that indexing `[1]` would raise
`IndexError`), otherwise the part before the first occurrence of `sep` and
the part after it. -/
def breakOnFirst (sep : List Char) : List Char → Option (List Char × List Char)
  | [] => if sep.isPrefixOf ([] : List Char) then some ([], []) else none
  | c :: t =>
    if sep.isPrefixOf (c :: t) then some ([], (c :: t).drop sep.length)
    else (breakOnFirst sep t).map fun p => (c :: p.1, p.2)

/-- Models Python `sep in s` (substring test). -/
def pyContains (sep l : List Char) : Bool :=
  (breakOnFirst sep l).isSome

/-- Models Python `s.split(sep)[1]`: the text between the first and second
occurrence of `sep` (up to the end of the string when `sep` occurs only
once); `none` when `sep` does not occur at all (Python raises `IndexError`,
which the catalog parser catches and turns into "skip this line"). -/
def pySplitGet1 (sep l : List Char) : Option (List Char) :=
  match breakOnFirst sep l with
  | none => none
  | some (_, rest) =>
    match breakOnFirst sep rest with
    | none => some rest
    | some (p, _) => some p

/-- Models Python `s.split()[0]`: the first whitespace-delimited token, or
`none` when the string contains no token (Python raises `IndexError`). -/
def pyFirstToken (l : List Char) : Option (List Char) :=
  let t := (l.dropWhile isSpacePy).takeWhile fun c => !isSpacePy c
  if t.isEmpty then none else some t

/-- ASCII decimal digit test. -/
def isDigitChar (c : Char) : Bool :=
  '0' ≤ c && c ≤ '9'

/-- Numeric value of a list of decimal digit characters. -/
def digitsVal (l : List Char) : Nat :=
  l.foldl (fun a c => 10 * a + (c.toNat - 48)) 0

/-- Models Python `int(s)` on the token shapes reachable in these scripts: a
non-empty all-digit string parses to its decimal value, anything else is
`none` (Python raises `ValueError`, which the callers catch).  CPython's
`int` additionally accepts signs, surrounding whitespace and `_` separators;
those shapes are never produced by the tokenizers feeding this function. -/
def pyInt? (l : List Char) : Option Nat :=
  if !l.isEmpty && l.all isDigitChar then some (digitsVal l) else none

/-- Models Python `s.split("\n")` (the catalog and comment bodies are always
split on the single character `"\n"`). -/
def pySplitLines (l : List Char) : List (List Char) :=
  l.splitOn '\n'

/-! ## TaxonomyMatcher: `areas_match` (check script, lines 318–324) -/

/-- `areas_match` from `github-check-new-issue-for-duplicates.py`:
two labels match iff they are equal or one extends the other after a `/`. -/
def areas_match (detected magnet_area : String) : Bool :=
  detected == magnet_area
    || pyStartswith magnet_area (detected ++ "/")
    || pyStartswith detected (magnet_area ++ "/")

/-! ## Magnet records and `filter_magnets_by_areas` (check script, lines 327–344) -/

/-- A parsed duplicate magnet: issue number, area labels (empty list means
"matches everything"), duplicate count.  Mirrors the dict
`{number, areas, dupe_count}` built by `parse_duplicate_magnets`. -/
structure Magnet where
  number : Nat
  areas : List String
  dupe_count : Nat
deriving DecidableEq, Repr

/-- `filter_magnets_by_areas` from `github-check-new-issue-for-duplicates.py`:
with no detected areas the catalog is returned unchanged; otherwise keep the
magnets with an empty area set or with some area matching some detected
area.  (The Python code first copies `detected_areas` into a `set`; only
membership is used, so the list is used directly here.) -/
def filter_magnets_by_areas (magnets : List Magnet) (detected_areas : List String) :
    List Magnet :=
  if detected_areas.isEmpty then magnets
  else magnets.filter fun m =>
    m.areas.isEmpty
      || detected_areas.any fun detected =>
          m.areas.any fun magnet_area => areas_match detected magnet_area

/-! ## Basic facts about the Python string helpers -/

theorem isPrefixOf_iff_exists (p l : List Char) :
    p.isPrefixOf l = true ↔ ∃ t, l = p ++ t := by
  induction p generalizing l with
  | nil => simp [List.isPrefixOf]
  | cons c p ih =>
    cases l with
    | nil => simp [List.isPrefixOf]
    | cons d t =>
      simp only [List.isPrefixOf, Bool.and_eq_true, beq_iff_eq, ih, List.cons_append,
        List.cons_eq_cons]
      constructor
      · rintro ⟨hc, t', rfl⟩
        exact ⟨t', hc.symm, rfl⟩
      · rintro ⟨t', hc, rfl⟩
        exact ⟨hc.symm, t', rfl⟩

theorem pyStartswith_iff (s p : String) :
    pyStartswith s p = true ↔ ∃ t : String, s = p ++ t := by
  unfold pyStartswith
  rw [isPrefixOf_iff_exists]
  constructor
  · rintro ⟨t, ht⟩
    exact ⟨⟨t⟩, String.ext (by simpa [String.data_append] using ht)⟩
  · rintro ⟨t, rfl⟩
    exact ⟨t.data, by simp [String.data_append]⟩

theorem string_append_assoc (a b c : String) : a ++ b ++ c = a ++ (b ++ c) := by
  apply String.ext
  simp [String.data_append]

theorem string_length_zero {s : String} (h : s.length = 0) : s = "" := by
  apply String.ext
  have hd : s.data.length = 0 := h
  simpa using List.length_eq_zero.mp hd

/-- The code's match relation, characterised: equal, or one label extends the
other after a `/` by a (possibly empty) suffix. -/
theorem areas_match_iff (a b : String) :
    areas_match a b = true ↔
      a = b ∨ (∃ s : String, b = a ++ "/" ++ s) ∨ (∃ s : String, a = b ++ "/" ++ s) := by
  simp only [areas_match, Bool.or_eq_true, beq_iff_eq, pyStartswith_iff, or_assoc]

/-- C5 (counterexample): the claim's characterisation with *non-empty*
suffixes fails at `a = "editor"`, `b = "editor/"`: the code matches them
(`"editor/".startswith("editor" + "/")` with an empty trailing suffix), but
no non-empty suffix `s` satisfies the claimed equations. -/
theorem c5_counterexample :
    ¬ (areas_match "editor" "editor/" = true ↔
        ("editor" : String) = "editor/"
          ∨ (∃ s : String, s ≠ "" ∧ "editor/" = "editor" ++ "/" ++ s)
          ∨ (∃ s : String, s ≠ "" ∧ "editor" = "editor/" ++ "/" ++ s)) := by
  intro h
  rcases h.mp (by decide) with h2 | ⟨s, hs, h3⟩ | ⟨s, hs, h3⟩
  · exact absurd h2 (by decide)
  · have hlen := congrArg String.length h3
    simp only [String.length_append] at hlen
    have e1 : ("editor/" : String).length = 7 := by decide
    have e2 : ("editor" : String).length = 6 := by decide
    have e3 : ("/" : String).length = 1 := by decide
    exact hs (string_length_zero (by omega))
  · have hlen := congrArg String.length h3
    simp only [String.length_append] at hlen
    have e1 : ("editor/" : String).length = 7 := by decide
    have e2 : ("editor" : String).length = 6 := by decide
    have e3 : ("/" : String).length = 1 := by decide
    omega

/-- C5 (amended): for all labels `a`, `b`, `matches(a, b)` is true iff
`a == b`, or `b == a + "/" + s` for some **possibly empty** suffix `s`, or
`a == b + "/" + s` for some possibly empty suffix `s`; `matches` is
symmetric and reflexive. -/
theorem c5_matches_characterization (a b : String) :
    (areas_match a b = true ↔
        a = b ∨ (∃ s : String, b = a ++ "/" ++ s) ∨ (∃ s : String, a = b ++ "/" ++ s))
      ∧ areas_match a b = areas_match b a
      ∧ areas_match a a = true := by
  refine ⟨areas_match_iff a b, ?_, by simp [areas_match]⟩
  rw [Bool.eq_iff_iff, areas_match_iff, areas_match_iff]
  tauto

/-- C3 (counterexample): with detected areas `["rust"]`, a magnet whose area
set is `["languages/rust"]` is **not** kept by the filter, contrary to the
claim ("rust" is not a `/`-segment ancestor of "languages/rust"). -/
theorem c3_counterexample :
    Magnet.mk 101 ["languages/rust"] 5 ∉
      filter_magnets_by_areas [⟨101, ["languages/rust"], 5⟩] ["rust"] := by decide

/-- C3 (amended): with detected areas `["rust"]` the filter drops both a
magnet with areas `["languages/rust"]` and one with areas `["vim"]`; by
contrast the detected area `["languages"]` does keep the
`["languages/rust"]` magnet (hierarchical ancestor match). -/
theorem c3_filter_examples :
    filter_magnets_by_areas [⟨101, ["languages/rust"], 5⟩, ⟨102, ["vim"], 4⟩] ["rust"] = []
      ∧ filter_magnets_by_areas [⟨101, ["languages/rust"], 5⟩, ⟨102, ["vim"], 4⟩] ["languages"]
          = [⟨101, ["languages/rust"], 5⟩] := by decide

/-- C6: filtering with an empty detected-area list returns the catalog
unchanged, and filtering with a non-empty list keeps exactly the magnets
that have an empty area set or have some area matching (via `areas_match`)
some detected area. -/
theorem c6_filter_spec :
    (∀ ms : List Magnet, filter_magnets_by_areas ms [] = ms)
      ∧ ∀ (ms : List Magnet) (das : List String), das ≠ [] →
          ∀ m : Magnet, m ∈ filter_magnets_by_areas ms das ↔
            m ∈ ms ∧ (m.areas = [] ∨ ∃ a ∈ m.areas, ∃ d ∈ das, areas_match d a = true) := by
  constructor
  · intro ms
    simp [filter_magnets_by_areas]
  · intro ms das hdas m
    rw [filter_magnets_by_areas, if_neg (by simpa [List.isEmpty_iff] using hdas)]
    rw [List.mem_filter]
    simp only [Bool.or_eq_true, List.any_eq_true, List.isEmpty_iff]
    constructor
    · rintro ⟨hm, he | ⟨d, hd, a, ha, hmatch⟩⟩
      · exact ⟨hm, Or.inl he⟩
      · exact ⟨hm, Or.inr ⟨a, ha, d, hd, hmatch⟩⟩
    · rintro ⟨hm, he | ⟨a, ha, d, hd, hmatch⟩⟩
      · exact ⟨hm, Or.inl he⟩
      · exact ⟨hm, Or.inr ⟨d, hd, a, ha, hmatch⟩⟩

/-- Witness for `c6_filter_spec` at a concrete input. -/
theorem c6_filter_spec_witness :
    (["rust"] : List String) ≠ [] ∧
      (Magnet.mk 7 [] 3 ∈ filter_magnets_by_areas [⟨7, [], 3⟩] ["rust"] ↔
        Magnet.mk 7 [] 3 ∈ [Magnet.mk 7 [] 3] ∧
          ((Magnet.mk 7 [] 3).areas = []
            ∨ ∃ a ∈ (Magnet.mk 7 [] 3).areas, ∃ d ∈ (["rust"] : List String),
                areas_match d a = true)) :=
  ⟨by decide, c6_filter_spec.2 [⟨7, [], 3⟩] ["rust"] (by decide) ⟨7, [], 3⟩⟩

/-! ## BotVersionTimeline: `bot_version_for_time` (track script, lines 46–58)

Timestamps are modelled as integers (the Python code compares timezone-aware
`datetime` values, whose ordering is a total order; `datetime.fromisoformat`
is an external conversion).  The timeline is a newest-first list of
`(version_label, deployment_instant)` pairs. -/

/-- `bot_version_for_time`: scan the newest-first timeline for the first
entry whose deployment instant is ≤ the timestamp; fall back to the last
(oldest) entry.  `none` models the `IndexError` Python would raise on an
empty timeline. -/
def bot_version_for_time (timeline : List (String × Int)) (t : Int) : Option String :=
  match timeline.find? (fun p => decide (p.2 ≤ t)) with
  | some p => some p.1
  | none => timeline.getLast?.map (fun p => p.1)

/-- C8: bot-version resolution returns the label of the first newest-first
entry whose deployment instant is ≤ the timestamp, falls back to the oldest
version when the timestamp predates every deployment (so it is never unset
on a non-empty timeline), and on the timeline `[("v2", T2), ("v1", T1)]`
with `T1 < T2` resolves to `"v1"` before `T1`, to `"v1"` between `T1` and
`T2`, and to `"v2"` at or after `T2`. -/
theorem c8_bot_version_resolution :
    (∀ (pre : List (String × Int)) (p : String × Int) (post : List (String × Int)) (t : Int),
        (∀ q ∈ pre, ¬ (q.2 ≤ t)) → p.2 ≤ t →
        bot_version_for_time (pre ++ p :: post) t = some p.1)
      ∧ (∀ (timeline : List (String × Int)) (t : Int), timeline ≠ [] →
          (∀ q ∈ timeline, t < q.2) →
          bot_version_for_time timeline t = (timeline.getLast?.map fun q => q.1))
      ∧ (∀ (timeline : List (String × Int)) (t : Int), timeline ≠ [] →
          (bot_version_for_time timeline t).isSome)
      ∧ (∀ (T1 T2 t : Int), T1 < T2 →
          (t < T1 → bot_version_for_time [("v2", T2), ("v1", T1)] t = some "v1")
            ∧ (T1 ≤ t → t < T2 → bot_version_for_time [("v2", T2), ("v1", T1)] t = some "v1")
            ∧ (T2 ≤ t → bot_version_for_time [("v2", T2), ("v1", T1)] t = some "v2")) := by
  have hfind : ∀ (pre : List (String × Int)) (p : String × Int) (post : List (String × Int))
      (t : Int), (∀ q ∈ pre, ¬ (q.2 ≤ t)) → p.2 ≤ t →
      bot_version_for_time (pre ++ p :: post) t = some p.1 := by
    intro pre p post t hpre hp
    unfold bot_version_for_time
    rw [List.find?_append]
    have h1 : (pre.find? fun q => decide (q.2 ≤ t)) = none := by
      rw [List.find?_eq_none]
      intro q hq
      simpa using hpre q hq
    rw [h1]
    simp [List.find?_cons, hp]
  have hnone : ∀ (timeline : List (String × Int)) (t : Int), (∀ q ∈ timeline, t < q.2) →
      bot_version_for_time timeline t = (timeline.getLast?.map fun q => q.1) := by
    intro timeline t hq
    unfold bot_version_for_time
    have h1 : (timeline.find? fun q => decide (q.2 ≤ t)) = none := by
      rw [List.find?_eq_none]
      intro q hmem
      simpa using hq q hmem
    rw [h1]
  refine ⟨hfind, fun timeline t _ h => hnone timeline t h, ?_, ?_⟩
  · intro timeline t hne
    unfold bot_version_for_time
    cases hfound : timeline.find? (fun p => decide (p.2 ≤ t)) with
    | some p => simp
    | none =>
      simp only [Option.isSome_map]
      rw [Option.isSome_iff_ne_none]
      simpa [List.getLast?_eq_none_iff] using hne
  · intro T1 T2 t hT
    refine ⟨fun h1 => ?_, fun h1 h2 => ?_, fun h2 => ?_⟩
    · have := hnone [("v2", T2), ("v1", T1)] t (by
        intro q hq
        rcases List.mem_pair.mp hq with rfl | rfl
        · exact lt_trans h1 hT
        · exact h1)
      simpa using this
    · have := hfind [("v2", T2)] ("v1", T1) [] t (by
        intro q hq
        rcases List.mem_singleton.mp hq with rfl
        simpa using h2) h1
      simpa using this
    · have := hfind [] ("v2", T2) [("v1", T1)] t (by simp) h2
      simpa using this

/-! ## Decimal rendering (Python `str(n)` / f-string formatting) -/

/-- The character for a decimal digit value. -/
def digitChar : Nat → Char
  | 0 => '0'
  | 1 => '1'
  | 2 => '2'
  | 3 => '3'
  | 4 => '4'
  | 5 => '5'
  | 6 => '6'
  | 7 => '7'
  | 8 => '8'
  | _ => '9'

/-- Fuel-driven digit accumulator (fuel `n` is always enough for `n`). -/
def digitsGo : Nat → Nat → List Char → List Char
  | 0, _, acc => acc
  | _ + 1, 0, acc => acc
  | fuel + 1, n + 1, acc =>
    digitsGo fuel ((n + 1) / 10) (digitChar ((n + 1) % 10) :: acc)

/-- The decimal digit characters of `n`, most significant first.  Models the
output of Python `str(n)` for a non-negative integer. -/
def natDigits (n : Nat) : List Char :=
  if n = 0 then ['0'] else digitsGo n n []

/-- Models Python `str(n)` / `f"{n}"` for a non-negative integer. -/
def natStr (n : Nat) : String :=
  ⟨natDigits n⟩

/-- Models Python `sep.join(xs)`. -/
def pyJoin (sep : String) : List String → String
  | [] => ""
  | x :: rest => rest.foldl (fun acc y => acc ++ sep ++ y) x

/-! ## OutcomeClassifier (track script, lines 313–422)

`fetch_issue`, `get_bot_comment_with_time`, `is_staff_member` and
`find_canonical_among`'s GraphQL data are external collaborator reads; they
enter the embedding as explicit parameters.  The record passed to
`add_or_update_project_item` (the classification result that is upserted
onto the project board) is the function result; `none` means no record is
produced. -/

/-- The issue fields used by the classifier (built by `fetch_issue`). -/
structure TIssue where
  number : Nat
  node_id : String
  author : String
deriving DecidableEq, Repr

/-- The detector bot's duplicate comment, as returned by
`get_bot_comment_with_time`. -/
structure BotComment where
  body : String
  created_at : String
deriving DecidableEq, Repr

/-- The field values handed to `add_or_update_project_item`: this is the
outcome record written to the project board. -/
structure OutcomeRecord where
  outcome : String
  status : String
  closed_as : Option String
  notes : Option String
  bot_comment_time : Option String
deriving DecidableEq, Repr

/-- `parse_suggested_issues`: extract issue numbers from the bot's comment,
one per line matching the regex `^- #(\d+)` (multiline). -/
def parse_suggested_issues (comment_body : String) : List Nat :=
  (pySplitLines comment_body.data).flatMap fun line =>
    if ("- #".data).isPrefixOf line then
      let ds := (line.drop 3).takeWhile isDigitChar
      if ds.isEmpty then [] else [digitsVal ds]
    else []

/-- `find_canonical_among`: the first suggested candidate whose timeline
(modelled by `timelines`, the GraphQL per-candidate `MarkedAsDuplicateEvent`
duplicate numbers; `none` for a candidate the partial-errors-tolerant query
returned no data for) marks `duplicate_number` as its duplicate. -/
def find_canonical_among (duplicate_number : Nat) (candidates : List Nat)
    (timelines : Nat → Option (List Nat)) : Option Nat :=
  if candidates.isEmpty then none
  else candidates.find? fun c =>
    match timelines c with
    | none => false
    | some dups => dups.contains duplicate_number

/-- `classify_as_success`: the author closed their own issue after the bot
commented. -/
def classify_as_success (bot_comment : BotComment) (state_reason : String) :
    OutcomeRecord :=
  if state_reason == "duplicate" then
    { outcome := "Success", status := "Auto-classified", closed_as := some state_reason,
      notes := none, bot_comment_time := some bot_comment.created_at }
  else
    { outcome := "Success", status := "Needs review", closed_as := some state_reason,
      notes := some ("Author closed as " ++ state_reason),
      bot_comment_time := some bot_comment.created_at }

/-- `classify_as_assist`: a non-author closed the issue as duplicate after
the bot commented.  `canonical` is the outcome of the
`find_canonical_among` call: `Except.error ()` models a
`requests.RequestException` / `RuntimeError` raised by the GraphQL lookup
(caught in the script, leaving `original = None`).  Python's
`if original:` treats both `None` and `0` as falsy. -/
def classify_as_assist (bot_comment : BotComment)
    (canonical : Except Unit (Option Nat)) : OutcomeRecord :=
  let suggested := parse_suggested_issues bot_comment.body
  if suggested.isEmpty then
    { outcome := "Assist", closed_as := some "duplicate", status := "Needs review",
      notes := some "Could not parse bot suggestions",
      bot_comment_time := some bot_comment.created_at }
  else
    let original : Option Nat :=
      match canonical with
      | Except.error _ => none
      | Except.ok o => o
    let needs_review : OutcomeRecord :=
      { outcome := "Assist", closed_as := some "duplicate", status := "Needs review",
        notes := some ("Bot suggested "
          ++ pyJoin ", " (suggested.map fun m => "#" ++ natStr m)
          ++ "; none matched as canonical"),
        bot_comment_time := some bot_comment.created_at }
    match original with
    | some n =>
      if n = 0 then needs_review
      else
        { outcome := "Assist", closed_as := some "duplicate", status := "Auto-classified",
          notes := none, bot_comment_time := some bot_comment.created_at }
    | none => needs_review

/-- `classify_non_author_closed`: a non-author (staff/triager) closed an
issue the bot had commented on. -/
def classify_non_author_closed (bot_comment : BotComment) (state_reason : String)
    (canonical : Except Unit (Option Nat)) : OutcomeRecord :=
  if state_reason == "duplicate" then classify_as_assist bot_comment canonical
  else
    { outcome := "Noise", closed_as := some state_reason, status := "Needs review",
      notes := some ("Closed by staff/triager as " ++ state_reason ++ ", not duplicate"),
      bot_comment_time := some bot_comment.created_at }

/-- `classify_as_missed_opportunity`: closed as duplicate, bot never
commented. -/
def classify_as_missed_opportunity : OutcomeRecord :=
  { outcome := "Missed opportunity", status := "Auto-classified",
    closed_as := some "duplicate", notes := none, bot_comment_time := none }

/-- `classify_closed`: classify a closed issue.  `is_staff` models
`is_staff_member`, `bot_comment` the result of `get_bot_comment_with_time`,
and `canonical` the (possibly failing) `find_canonical_among` lookup used in
the Assist branch.  Returns the record upserted to the board, or `none` when
no record is produced.  The CLI argument `state_reason` falls back to
`"unknown"` when falsy (empty). -/
def classify_closed (is_staff : String → Bool) (issue : TIssue) (closer_login : String)
    (state_reason_arg : String) (bot_comment : Option BotComment)
    (canonical : Except Unit (Option Nat)) : Option OutcomeRecord :=
  let state_reason := if state_reason_arg == "" then "unknown" else state_reason_arg
  if is_staff issue.author then none
  else
    match bot_comment with
    | some bc =>
      if closer_login == issue.author then some (classify_as_success bc state_reason)
      else some (classify_non_author_closed bc state_reason canonical)
    | none =>
      if state_reason == "duplicate" then some classify_as_missed_opportunity
      else none

/-- Witness for `c8_bot_version_resolution` at a concrete timeline. -/
theorem c8_bot_version_resolution_witness :
    (0 : Int) < 10 ∧ (0 : Int) ≤ 5 ∧ (5 : Int) < 10 ∧
      bot_version_for_time [("v2", 10), ("v1", 0)] 5 = some "v1" :=
  ⟨by decide, by decide, by decide,
    (c8_bot_version_resolution.2.2.2 0 10 5 (by decide)).2.1 (by decide) (by decide)⟩

theorem list_isEmpty_false_of_ne_nil {α : Type} {l : List α} (h : l ≠ []) :
    l.isEmpty = false := by
  simpa [List.isEmpty_iff] using h

theorem contains_iff_mem (l : List Nat) (a : Nat) : l.contains a = true ↔ a ∈ l := by
  simp [List.contains, List.elem_iff]

/-- C2: the closed-issue decision table for a non-staff author, and the
staff-author exclusion. -/
theorem c2_classify_closed_table
    (is_staff : String → Bool) (issue : TIssue) (bc : BotComment) (reason : String)
    (canonical : Except Unit (Option Nat)) :
    (is_staff issue.author = false →
      (reason = "duplicate" →
        classify_closed is_staff issue issue.author reason (some bc) canonical =
          some { outcome := "Success", status := "Auto-classified",
                 closed_as := some "duplicate", notes := none,
                 bot_comment_time := some bc.created_at })
      ∧ (reason ≠ "duplicate" → reason ≠ "" →
        classify_closed is_staff issue issue.author reason (some bc) canonical =
          some { outcome := "Success", status := "Needs review",
                 closed_as := some reason,
                 notes := some ("Author closed as " ++ reason),
                 bot_comment_time := some bc.created_at })
      ∧ (∀ closer, closer ≠ issue.author → reason ≠ "duplicate" → reason ≠ "" →
        classify_closed is_staff issue closer reason (some bc) canonical =
          some { outcome := "Noise", status := "Needs review",
                 closed_as := some reason,
                 notes := some ("Closed by staff/triager as " ++ reason ++ ", not duplicate"),
                 bot_comment_time := some bc.created_at })
      ∧ (∀ closer, classify_closed is_staff issue closer "duplicate" none canonical =
          some { outcome := "Missed opportunity", status := "Auto-classified",
                 closed_as := some "duplicate", notes := none, bot_comment_time := none })
      ∧ (∀ closer, reason ≠ "duplicate" →
          classify_closed is_staff issue closer reason none canonical = none))
    ∧ (is_staff issue.author = true →
        ∀ closer bc0, classify_closed is_staff issue closer reason bc0 canonical = none) := by
  constructor
  · intro hstaff
    refine ⟨?_, ?_, ?_, ?_, ?_⟩
    · rintro rfl
      simp [classify_closed, classify_as_success, hstaff]
    · intro hdup hempty
      have h1 : (reason == "") = false := by simpa using hempty
      have h2 : (reason == "duplicate") = false := by simpa using hdup
      simp [classify_closed, classify_as_success, hstaff, h1, h2]
    · intro closer hcloser hdup hempty
      have h1 : (reason == "") = false := by simpa using hempty
      have h2 : (reason == "duplicate") = false := by simpa using hdup
      have h3 : (closer == issue.author) = false := by simpa using hcloser
      simp [classify_closed, classify_non_author_closed, hstaff, h1, h2, h3]
    · intro closer
      simp [classify_closed, classify_as_missed_opportunity, hstaff]
    · intro closer hdup
      by_cases hempty : reason = ""
      · subst hempty
        simp [classify_closed, hstaff]
      · have h1 : (reason == "") = false := by simpa using hempty
        have h2 : (reason == "duplicate") = false := by simpa using hdup
        simp [classify_closed, hstaff, h1, h2]
  · intro hstaff closer bc0
    simp [classify_closed, hstaff]

/-- Witness for `c2_classify_closed_table`: a concrete non-staff author whose
issue, closed by the author as duplicate after a bot comment, is classified
`(Success, Auto-classified)`. -/
theorem c2_classify_closed_table_witness :
    ((fun u => u == "staffer") "alice" = false) ∧
      classify_closed (fun u => u == "staffer") ⟨1, "N1", "alice"⟩ "alice" "duplicate"
          (some ⟨"- #10", "2026-03-01T00:00:00Z"⟩) (Except.ok none) =
        some { outcome := "Success", status := "Auto-classified",
               closed_as := some "duplicate", notes := none,
               bot_comment_time := some "2026-03-01T00:00:00Z" } :=
  ⟨by decide,
    ((c2_classify_closed_table (fun u => u == "staffer") ⟨1, "N1", "alice"⟩
        ⟨"- #10", "2026-03-01T00:00:00Z"⟩ "duplicate" (Except.ok none)).1
      (by decide)).1 rfl⟩

/-- C4: an issue with a detector comment closed as "duplicate" by a
non-author routes to the Assist classifier; the Assist record always has
outcome `Assist` and `closed_as = duplicate`; with the canonical lookup
succeeding, its status is `Auto-classified` iff the issue's recorded
canonical duplicate target (per `find_canonical_among` over the candidate
timelines) is among the parsed suggested ids; a failed lookup or an
unparseable comment gives `Needs review` with a note, and a record is still
produced in every case. -/
theorem c4_assist_verdict
    (is_staff : String → Bool) (issue : TIssue) (closer : String) (bc : BotComment)
    (timelines : Nat → Option (List Nat)) :
    is_staff issue.author = false → closer ≠ issue.author →
    (∀ canonical, classify_closed is_staff issue closer "duplicate" (some bc) canonical =
        some (classify_as_assist bc canonical))
    ∧ (∀ canonical, (classify_as_assist bc canonical).outcome = "Assist"
        ∧ (classify_as_assist bc canonical).closed_as = some "duplicate")
    ∧ (parse_suggested_issues bc.body ≠ [] →
        (∀ c ∈ parse_suggested_issues bc.body, 0 < c) →
        ((classify_as_assist bc
            (Except.ok (find_canonical_among issue.number
              (parse_suggested_issues bc.body) timelines))).status = "Auto-classified" ↔
          ∃ c ∈ parse_suggested_issues bc.body, ∃ dups,
            timelines c = some dups ∧ issue.number ∈ dups))
    ∧ (parse_suggested_issues bc.body ≠ [] →
        (classify_as_assist bc (Except.error ())).status = "Needs review"
          ∧ ((classify_as_assist bc (Except.error ())).notes).isSome = true)
    ∧ (parse_suggested_issues bc.body = [] →
        ∀ canonical, (classify_as_assist bc canonical).status = "Needs review"
          ∧ (classify_as_assist bc canonical).notes = some "Could not parse bot suggestions") := by
  intro hstaff hcloser
  have h3 : (closer == issue.author) = false := by simpa using hcloser
  refine ⟨?_, ?_, ?_, ?_, ?_⟩
  · intro canonical
    simp [classify_closed, classify_non_author_closed, hstaff, h3]
  · intro canonical
    by_cases hksug : (parse_suggested_issues bc.body).isEmpty
    · simp [classify_as_assist, hksug]
    · cases canonical with
      | error e => simp [classify_as_assist, hksug]
      | ok o =>
        cases o with
        | none => simp [classify_as_assist, hksug]
        | some n =>
          by_cases hn : n = 0 <;> simp [classify_as_assist, hksug, hn]
  · intro hne hpos
    have hempty : (parse_suggested_issues bc.body).isEmpty = false :=
      list_isEmpty_false_of_ne_nil hne
    have hfca : find_canonical_among issue.number (parse_suggested_issues bc.body) timelines =
        (parse_suggested_issues bc.body).find? fun c =>
          match timelines c with
          | none => false
          | some dups => dups.contains issue.number := by
      simp [find_canonical_among, hempty]
    cases hfind : (parse_suggested_issues bc.body).find? fun c =>
        match timelines c with
        | none => false
        | some dups => dups.contains issue.number with
    | none =>
      rw [hfca, hfind]
      constructor
      · intro hstat
        have h5 : ("Needs review" : String) = "Auto-classified" := by
          simp only [classify_as_assist, hempty] at hstat
          exact hstat
        exact absurd h5 (by decide)
      · rintro ⟨c, hc, dups, hdups, hmem⟩
        have hnp := List.find?_eq_none.mp hfind c hc
        rw [hdups] at hnp
        exact (hnp ((contains_iff_mem dups issue.number).mpr hmem)).elim
    | some n =>
      have hmemn : n ∈ parse_suggested_issues bc.body := List.mem_of_find?_eq_some hfind
      have hpn : (match timelines n with
          | none => false
          | some dups => dups.contains issue.number) = true := by
        simpa using List.find?_some hfind
      have hn0 : ¬ (n = 0) := by
        have := hpos n hmemn
        omega
      rw [hfca, hfind]
      constructor
      · intro _
        cases hdups : timelines n with
        | none => rw [hdups] at hpn; simp at hpn
        | some dups =>
          rw [hdups] at hpn
          exact ⟨n, hmemn, dups, hdups, (contains_iff_mem dups issue.number).mp hpn⟩
      · intro _
        simp [classify_as_assist, hempty, hn0]
  · intro hne
    have hempty : (parse_suggested_issues bc.body).isEmpty = false :=
      list_isEmpty_false_of_ne_nil hne
    constructor <;> simp [classify_as_assist, hempty]
  · intro hemp canonical
    have hempty : (parse_suggested_issues bc.body).isEmpty = true := by simp [hemp]
    constructor <;> simp [classify_as_assist, hempty]

/-- Witness for `c4_assist_verdict`: detector suggested `[10, 20]`, the
issue's actual duplicate target is `20` — `(Assist, Auto-classified)`. -/
theorem c4_assist_verdict_witness :
    ((fun u => u == "staffer") "alice" = false) ∧ ("bob" : String) ≠ "alice" ∧
      parse_suggested_issues "- #10\n- #20" ≠ [] ∧
      ((classify_as_assist ⟨"- #10\n- #20", "T"⟩
          (Except.ok (find_canonical_among 5 (parse_suggested_issues "- #10\n- #20")
            (fun c => if c = 20 then some [5] else some [])))).status = "Auto-classified" ↔
        ∃ c ∈ parse_suggested_issues "- #10\n- #20", ∃ dups,
          (fun c => if c = 20 then some [5] else some ([] : List Nat)) c = some dups ∧
            5 ∈ dups) :=
  ⟨by decide, by decide, by decide,
    by
      have h := (c4_assist_verdict (fun u => u == "staffer") ⟨5, "N5", "alice"⟩ "bob"
          ⟨"- #10\n- #20", "T"⟩ (fun c => if c = 20 then some [5] else some [])
          (by decide) (by decide)).2.2.1 (by decide) (by decide)
      exact h⟩

/-! ## MagnetCatalogBuilder: `parse_duplicate_magnets` (check script, lines 257–306)

The tracking-issue body (fetched from GitHub) is the `body` argument.  The
Python dict `magnets` (insertion-ordered, keyed by issue number) is modelled
as an insertion-ordered list with unique `number` fields; `sorted(...,
key=dupe_count, reverse=True)` is modelled as a stable insertion sort with
the descending comparison, which computes the same list as CPython's stable
`sorted` with `reverse=True`. -/

/-- The reserved "(unlabeled)" section marker. -/
def unlabeledMark : List Char :=
  "(unlabeled)".data

/-- The `try:` block of the parser loop: extract
`int(line.split("[")[1].split()[0])` and
`int(line.split("/issues/")[1].split()[0].rstrip(")"))`; `none` models the
caught `ValueError`/`IndexError` (the line is skipped). -/
def parseBulletCounts (line : List Char) : Option (Nat × Nat) := do
  let piece1 ← pySplitGet1 ("[".data) line
  let tok1 ← pyFirstToken piece1
  let dc ← pyInt? tok1
  let piece2 ← pySplitGet1 ("/issues/".data) line
  let tok2 ← pyFirstToken piece2
  let n ← pyInt? (pyRstripParen tok2)
  pure (dc, n)

/-- One bullet-line update of the magnets accumulator: a new issue number is
appended (with an empty area set when the current section is
"(unlabeled)"); an already-seen number gets the current area appended unless
the current section is "(unlabeled)". -/
def recordBullet (current_area : List Char) (dc n : Nat) (magnets : List Magnet) :
    List Magnet :=
  let is_unlabeled := current_area == unlabeledMark
  if magnets.any fun m => m.number == n then
    if is_unlabeled then magnets
    else magnets.map fun m =>
      if m.number == n then { m with areas := m.areas ++ [⟨current_area⟩] } else m
  else
    magnets ++ [{ number := n, areas := if is_unlabeled then [] else [⟨current_area⟩],
                  dupe_count := dc }]

/-- One iteration of the parser's line loop on the
`(current_area, magnets)` state: `## ` headers set the current area
(stripped); other lines are bullets only when a (non-empty) current area is
set, the line starts with `-` and mentions `/issues/`; anything else is
ignored.  (`current = some []` mirrors Python's falsy empty-string
`current_area`.) -/
def parseStep (st : Option (List Char) × List Magnet) (line : List Char) :
    Option (List Char) × List Magnet :=
  if ("## ".data).isPrefixOf line then (some (pyStripChars (line.drop 3)), st.2)
  else
    match st.1 with
    | none => st
    | some area =>
      if area.isEmpty then st
      else if ("-".data).isPrefixOf line && pyContains ("/issues/".data) line then
        match parseBulletCounts line with
        | some (dc, n) => (st.1, recordBullet area dc n st.2)
        | none => st
      else st

/-- The parser's line loop. -/
def parseLinesGo : Option (List Char) → List Magnet → List (List Char) → List Magnet
  | _, magnets, [] => magnets
  | current, magnets, line :: rest =>
    parseLinesGo (parseStep (current, magnets) line).1 (parseStep (current, magnets) line).2
      rest

instance magnetDescTotal : IsTotal Magnet (fun a b => b.dupe_count ≤ a.dupe_count) :=
  ⟨fun a b => (Nat.le_total b.dupe_count a.dupe_count).imp id id⟩

instance magnetDescTrans : IsTrans Magnet (fun a b => b.dupe_count ≤ a.dupe_count) :=
  ⟨fun _ _ _ hab hbc => Nat.le_trans hbc hab⟩

/-- `parse_duplicate_magnets`: split the tracking-issue body into lines, run
the parser loop, and return the magnets sorted by duplicate count, most
duplicated first (stable descending sort). -/
def parse_duplicate_magnets (body : String) : List Magnet :=
  List.insertionSort (fun a b => b.dupe_count ≤ a.dupe_count)
    (parseLinesGo none [] (pySplitLines body.data))

/-- C1 (counterexample): a catalog in which issue 10 first appears under
`(unlabeled)` and then under section `rust` yields a magnet whose area set
is `["rust"]`, not the claimed permanently-empty set: the later named
section **does** add its area. -/
theorem c1_counterexample :
    parse_duplicate_magnets
        ("## (unlabeled)\n-   [3 dupes] https://github.com/zed-industries/zed/issues/10\n"
          ++ "## rust\n-   [5 dupes] https://github.com/zed-industries/zed/issues/10")
      = [⟨10, ["rust"], 3⟩] := by decide

/-- C1 (amended): a magnet whose first occurrence lies under "(unlabeled)"
is created with an empty area set and the duplicate count of that first
occurrence; re-listing it under "(unlabeled)" changes nothing; but
re-listing it under a **different named section appends that section's
area** — first classification as unlabeled is *not* permanent.  The
concrete equation shows the end-to-end effect. -/
theorem c1_unlabeled_not_permanent :
    (∀ (dc n : Nat) (ms : List Magnet), (ms.any fun m => m.number == n) = false →
        recordBullet unlabeledMark dc n ms = ms ++ [⟨n, [], dc⟩])
    ∧ (∀ (dc n : Nat) (ms : List Magnet), (ms.any fun m => m.number == n) = true →
        recordBullet unlabeledMark dc n ms = ms)
    ∧ (∀ (area : List Char) (dc n : Nat) (ms : List Magnet), area ≠ unlabeledMark →
        (ms.any fun m => m.number == n) = true →
        recordBullet area dc n ms =
          (ms.map fun m =>
            if m.number == n then { m with areas := m.areas ++ [⟨area⟩] } else m))
    ∧ parse_duplicate_magnets
        ("## (unlabeled)\n-   [3 dupes] https://github.com/zed-industries/zed/issues/10\n"
          ++ "## rust\n-   [5 dupes] https://github.com/zed-industries/zed/issues/10")
      = [⟨10, ["rust"], 3⟩] := by
  refine ⟨?_, ?_, ?_, by decide⟩
  · intro dc n ms hany
    simp [recordBullet, hany]
  · intro dc n ms hany
    simp [recordBullet, hany]
  · intro area dc n ms harea hany
    have hbeq : (area == unlabeledMark) = false := by simpa using harea
    simp [recordBullet, hany, hbeq]

/-- Witness for `c1_unlabeled_not_permanent` at concrete inputs. -/
theorem c1_unlabeled_not_permanent_witness :
    (([] : List Magnet).any fun m => m.number == 10) = false ∧
      recordBullet unlabeledMark 3 10 [] = [⟨10, [], 3⟩] :=
  ⟨by decide, c1_unlabeled_not_permanent.1 3 10 [] (by decide)⟩

/-! ## CandidateAssembler (check script, lines 347–415)

`search_for_similar_issues` builds a fixed-priority query list (title
keywords, one per detected area, error pattern), executes a capped number of
them and merges the results, deduplicating by issue number with first-writer
wins.  `github_search_issues` is an external collaborator: it enters as the
`runQuery` parameter (`none` models a caught `requests.RequestException`).
`datetime.now()` is external, so the sixty-day cutoff date string is a
parameter. -/

/-- The new issue as used by the check script. -/
structure CIssue where
  number : Nat
  title : String
  body : String
deriving DecidableEq, Repr

/-- A raw search result item (fields read from the GitHub response). -/
structure SearchItem where
  number : Nat
  title : String
  state : String
  created_at : String
  body : String
deriving DecidableEq, Repr

/-- A merged entry of `seen_issues`. -/
structure SimilarIssue where
  number : Nat
  title : String
  state : String
  created_at : String
  body_preview : String
  source : String
deriving DecidableEq, Repr

/-- Models Python `s[:n]`. -/
def pyTruncate (s : String) (n : Nat) : String :=
  ⟨s.data.take n⟩

/-- Models Python `s.lower()` (ASCII case folding; the stopword list and
title keywords are ASCII). -/
def pyLower (s : String) : String :=
  ⟨s.data.map Char.toLower⟩

/-- Whitespace splitter: models Python `s.split()` with no argument (runs of
whitespace separate tokens, empty tokens discarded). -/
def pySplitWsGo : List Char → List Char → List (List Char)
  | acc, [] => if acc.isEmpty then [] else [acc.reverse]
  | acc, c :: rest =>
    if isSpacePy c then
      if acc.isEmpty then pySplitWsGo [] rest else acc.reverse :: pySplitWsGo [] rest
    else pySplitWsGo (c :: acc) rest

/-- Models Python `s.split()`. -/
def pySplitWs (l : List Char) : List (List Char) :=
  pySplitWsGo [] l

/-- The `STOPWORDS` constant of the check script. -/
def STOPWORDS : List String :=
  ["after", "all", "also", "and", "any", "but", "can't", "does", "doesn't",
   "don't", "for", "from", "have", "just", "not", "only", "some", "that",
   "the", "this", "when", "while", "with", "won't", "work", "working", "zed"]

/-- The title keyword extraction of `search_for_similar_issues`:
whitespace-split the title, drop stopwords (lower-cased comparison) and
tokens of length ≤ 2. -/
def title_keywords (title : String) : List String :=
  ((pySplitWs title.data).map fun w => (⟨w⟩ : String)).filter fun w =>
    !(STOPWORDS.contains (pyLower w)) && decide (2 < w.length)

/-! ### The error-pattern regex

`re.search(r"(?i:\b(?:error|panicked|panic|failed)\b)\s*([^\n]{5,90})", body)`
is embedded as a direct scanner: try each position left to right (leftmost
match wins); at a position, the first alternation branch whose lower-cased
keyword matches with word boundaries on both sides commits (the only
overlapping branches, `panicked`/`panic`, can never both have a right word
boundary); then `\s*` greedily skips whitespace (which may include
newlines!) and backtracks one character at a time until 5–90 non-newline
characters can be captured. -/

/-- Models the regex word-character class `\w` (for the ASCII text around
the matched keywords). -/
def wordChar (c : Char) : Bool :=
  c.isAlphanum || c == '_'

/-- The alternation branches, in the pattern's order. -/
def errorKeywords : List (List Char) :=
  ["error".data, "panicked".data, "panic".data, "failed".data]

/-- The capture attempt after the keyword: try skipping `j` whitespace
characters (greedy: longest first), capture up to 90 non-newline characters,
succeed if at least 5. -/
def captureGo (rest : List Char) : Nat → Option (List Char)
  | 0 =>
    let cap := (rest.takeWhile fun c => c != '\n').take 90
    if 5 ≤ cap.length then some cap else none
  | j + 1 =>
    let cap := ((rest.drop (j + 1)).takeWhile fun c => c != '\n').take 90
    if 5 ≤ cap.length then some cap else captureGo rest j

/-- `\s*([^\n]{5,90})` at `rest`: greedy whitespace skip with backtracking. -/
def tryCapture (rest : List Char) : Option (List Char) :=
  captureGo rest (rest.takeWhile isSpacePy).length

/-- A `\b` word boundary holds against this neighbouring character (none =
start/end of the text; the keyword side is always a word character). -/
def boundaryOk : Option Char → Bool
  | none => true
  | some c => !wordChar c

/-- Does one alternation branch `kw` match at the head of `l` with word
boundaries (`prev` is the character before this position)? -/
def kwHeadMatch (prev : Option Char) (kw l : List Char) : Bool :=
  ((l.take kw.length).map Char.toLower == kw)
    && boundaryOk prev
    && boundaryOk (l.drop kw.length).head?

/-- Try the full pattern anchored at the current position. -/
def tryMatchAt (prev : Option Char) (l : List Char) : Option (List Char) :=
  match errorKeywords.find? fun kw => kwHeadMatch prev kw l with
  | none => none
  | some kw => tryCapture (l.drop kw.length)

/-- `re.search` for the error pattern: scan positions left to right,
returning the first position's captured group. -/
def errorSearchGo : Option Char → List Char → Option (List Char)
  | _, [] => none
  | prev, c :: rest =>
    match tryMatchAt prev (c :: rest) with
    | some cap => some cap
    | none => errorSearchGo (some c) rest

/-- The error-pattern match of `search_for_similar_issues`: the captured
group of the first match of
`(?i:\b(?:error|panicked|panic|failed)\b)\s*([^\n]{5,90})` in the body. -/
def errorSearch (body : List Char) : Option (List Char) :=
  errorSearchGo none body

/-- The `base_query` string of `search_for_similar_issues`. -/
def base_query : String :=
  "repo:zed-industries/zed is:issue is:open"

/-- The `queries` list of `search_for_similar_issues` (lines 355–374):
title-keyword query (if any keywords survive), one query per detected area,
then the error-pattern query (if the pattern matches). -/
def buildQueries (issue : CIssue) (detected_areas : List String)
    (sixty_days_ago : String) : List (String × String) :=
  let q1 : List (String × String) :=
    if (title_keywords issue.title).isEmpty then []
    else [("title_keywords", base_query ++ " " ++ pyJoin " " (title_keywords issue.title))]
  let q2 := detected_areas.map fun area =>
    ("area_label", base_query ++ " label:\"area:" ++ area ++ "\" created:>" ++ sixty_days_ago)
  let q3 : List (String × String) :=
    match errorSearch issue.body.data with
    | some cap =>
      [("error_pattern", base_query ++ " in:body \"" ++ (⟨pyStripChars cap⟩ : String) ++ "\"")]
    | none => []
  q1 ++ q2 ++ q3

/-- The `seen_issues` record built from a search item. -/
def mkSimilar (tag : String) (item : SearchItem) : SimilarIssue :=
  { number := item.number, title := item.title, state := item.state,
    created_at := item.created_at, body_preview := pyTruncate item.body 1000,
    source := tag }

/-- One merge step of the result loop: record the item under its query's tag
unless it is the issue itself or already seen. -/
def mergeStep (own : Nat) (seen : List SimilarIssue) (p : String × SearchItem) :
    List SimilarIssue :=
  if p.2.number ≠ own ∧ ¬ (seen.any fun s => s.number == p.2.number) then
    seen ++ [mkSimilar p.1 p.2]
  else seen

/-- Merging a flat list of `(tag, item)` pairs. -/
def mergePairs (own : Nat) (seen : List SimilarIssue)
    (pairs : List (String × SearchItem)) : List SimilarIssue :=
  pairs.foldl (mergeStep own) seen

/-- `search_for_similar_issues`: execute (at most `max_searches`) queries in
order; a failed query (`runQuery = none`, a caught request exception) is
skipped; results merge into `seen_issues` in encounter order, first writer
wins, and the issue's own number is never recorded. -/
def search_for_similar_issues (issue : CIssue) (detected_areas : List String)
    (sixty_days_ago : String)
    (runQuery : String × String → Option (List SearchItem))
    (max_searches : Nat := 6) : List SimilarIssue :=
  ((buildQueries issue detected_areas sixty_days_ago).take max_searches).foldl
    (fun seen tq =>
      match runQuery tq with
      | none => seen
      | some results => results.foldl (fun seen item => mergeStep issue.number seen (tq.1, item)) seen)
    []

/-- The executed queries with their (possibly empty, on failure) result
lists, in execution order. -/
def executedResults (issue : CIssue) (detected_areas : List String)
    (sixty_days_ago : String)
    (runQuery : String × String → Option (List SearchItem))
    (max_searches : Nat) : List (String × List SearchItem) :=
  ((buildQueries issue detected_areas sixty_days_ago).take max_searches).map
    fun tq => (tq.1, (runQuery tq).getD [])

/-- The flat `(tag, item)` stream of the executed queries. -/
def pairsOf (executed : List (String × List SearchItem)) : List (String × SearchItem) :=
  executed.flatMap fun te => te.2.map fun i => (te.1, i)

/-- The tag of the first executed query whose results contain `n`. -/
def firstSeenTag (executed : List (String × List SearchItem)) (n : Nat) : Option String :=
  (((pairsOf executed).filter fun p => p.2.number == n).head?).map fun p => p.1

/-- A candidate handed to the duplicate-analysis oracle. -/
structure Candidate where
  number : Nat
  title : String
  body_preview : String
  source : String
deriving DecidableEq, Repr

/-- The candidate assembly of `analyze_duplicates` (lines 404–415): the top
10 magnets (enriched through the external issue fetch, modelled by
`fetchIssue : number ↦ (title, body)`), then the first 10 search results
whose numbers are not among those magnets. -/
def analyze_candidates (magnets : List Magnet) (search_results : List SimilarIssue)
    (fetchIssue : Nat → String × String) : List Candidate :=
  let top_magnets := magnets.take 10
  let magnet_numbers := top_magnets.map fun m => m.number
  (top_magnets.map fun m =>
    { number := m.number, title := (fetchIssue m.number).1,
      body_preview := pyTruncate (fetchIssue m.number).2 1000,
      source := "known_duplicate_magnet" })
  ++ (((search_results.take 10).filter fun r => ¬ (magnet_numbers.contains r.number)).map
      fun r =>
        { number := r.number, title := r.title, body_preview := r.body_preview,
          source := "search_result" })

@[simp]
theorem mkSimilar_number (tag : String) (item : SearchItem) :
    (mkSimilar tag item).number = item.number := rfl

@[simp]
theorem mkSimilar_source (tag : String) (item : SearchItem) :
    (mkSimilar tag item).source = tag := rfl

theorem mergePairs_nil (own : Nat) (seen : List SimilarIssue) :
    mergePairs own seen [] = seen := rfl

theorem mergePairs_cons (own : Nat) (seen : List SimilarIssue)
    (p : String × SearchItem) (rest : List (String × SearchItem)) :
    mergePairs own seen (p :: rest) = mergePairs own (mergeStep own seen p) rest := rfl

theorem mergePairs_append (own : Nat) (seen : List SimilarIssue)
    (p1 p2 : List (String × SearchItem)) :
    mergePairs own seen (p1 ++ p2) = mergePairs own (mergePairs own seen p1) p2 :=
  List.foldl_append ..

theorem mergePairs_nodup (own : Nat) (pairs : List (String × SearchItem)) :
    ∀ seen : List SimilarIssue, (seen.map fun s => s.number).Nodup →
      ((mergePairs own seen pairs).map fun s => s.number).Nodup := by
  induction pairs with
  | nil => intro seen h; exact h
  | cons p rest ih =>
    intro seen h
    rw [mergePairs_cons]
    apply ih
    unfold mergeStep
    split
    · next hcond =>
      rw [List.map_append]
      rw [List.nodup_append]
      refine ⟨h, by simp, ?_⟩
      intro n hn
      simp only [List.map_cons, List.map_nil, List.mem_singleton, mkSimilar_number]
      intro hn2
      apply hcond.2
      rw [List.any_eq_true]
      rw [List.mem_map] at hn
      obtain ⟨s, hs, hsn⟩ := hn
      exact ⟨s, hs, by simp [hsn, hn2]⟩
    · exact h

theorem mergePairs_spec (own : Nat) (pairs : List (String × SearchItem)) :
    ∀ (seen : List SimilarIssue) (r : SimilarIssue),
      r ∈ mergePairs own seen pairs → r ∉ seen →
        r.number ∉ (seen.map fun s => s.number) ∧ r.number ≠ own ∧
        ∃ tag item, (pairs.filter fun q => q.2.number == r.number).head? = some (tag, item)
          ∧ r = mkSimilar tag item := by
  induction pairs with
  | nil =>
    intro seen r hmem hns
    exact absurd hmem hns
  | cons p rest ih =>
    intro seen r hmem hns
    rw [mergePairs_cons] at hmem
    by_cases hcond : p.2.number ≠ own ∧ ¬ (seen.any fun s => s.number == p.2.number)
    · have hstep : mergeStep own seen p = seen ++ [mkSimilar p.1 p.2] := by
        unfold mergeStep
        rw [if_pos hcond]
      rw [hstep] at hmem
      by_cases hr : r = mkSimilar p.1 p.2
      · subst hr
        have hnum : (mkSimilar p.1 p.2).number = p.2.number := rfl
        refine ⟨?_, by simpa [hnum] using hcond.1, p.1, p.2, ?_, rfl⟩
        · rw [hnum]
          intro hin
          apply hcond.2
          rw [List.any_eq_true]
          rw [List.mem_map] at hin
          obtain ⟨s, hs, hsn⟩ := hin
          exact ⟨s, hs, by simp [hsn]⟩
        · rw [List.filter_cons]
          have : (p.2.number == (mkSimilar p.1 p.2).number) = true := by simp
          rw [if_pos this]
          rfl
      · have hns2 : r ∉ seen ++ [mkSimilar p.1 p.2] := by
          simp only [List.mem_append, List.mem_singleton]
          rintro (h1 | h2)
          · exact hns h1
          · exact hr h2
        obtain ⟨hnums, hown, tag, item, hhead, hrmk⟩ := ih _ r hmem hns2
        rw [List.map_append] at hnums
        simp only [List.mem_append, List.map_cons, List.map_nil, List.mem_singleton,
          mkSimilar_number, not_or] at hnums
        refine ⟨hnums.1, hown, tag, item, ?_, hrmk⟩
        rw [List.filter_cons]
        have hne : (p.2.number == r.number) = false := by
          simp only [beq_eq_false_iff_ne, ne_eq]
          intro he
          exact hnums.2 he.symm
        rw [if_neg (by simp [hne])]
        exact hhead
    · have hstep : mergeStep own seen p = seen := by
        unfold mergeStep
        rw [if_neg hcond]
      rw [hstep] at hmem
      obtain ⟨hnums, hown, tag, item, hhead, hrmk⟩ := ih seen r hmem hns
      refine ⟨hnums, hown, tag, item, ?_, hrmk⟩
      rw [List.filter_cons]
      have hne : (p.2.number == r.number) = false := by
        simp only [beq_eq_false_iff_ne, ne_eq]
        intro he
        rw [Decidable.not_and_iff_or_not] at hcond
        rcases hcond with h1 | h2
        · rw [not_not] at h1
          exact hown (he.symm.trans h1)
        · rw [not_not, List.any_eq_true] at h2
          obtain ⟨s, hs, hsn⟩ := h2
          apply hnums
          rw [List.mem_map]
          exact ⟨s, hs, by simpa [he] using hsn⟩
      rw [if_neg (by simp [hne])]
      exact hhead

theorem search_eq_mergePairs (issue : CIssue) (das : List String) (d : String)
    (runQuery : String × String → Option (List SearchItem)) (max_searches : Nat) :
    search_for_similar_issues issue das d runQuery max_searches
      = mergePairs issue.number []
          (pairsOf (executedResults issue das d runQuery max_searches)) := by
  unfold search_for_similar_issues executedResults
  generalize ((buildQueries issue das d).take max_searches) = qs
  suffices h : ∀ (qs : List (String × String)) (seen : List SimilarIssue),
      qs.foldl (fun seen tq =>
        match runQuery tq with
        | none => seen
        | some results =>
          results.foldl (fun seen item => mergeStep issue.number seen (tq.1, item)) seen) seen
        = mergePairs issue.number seen
            (pairsOf (qs.map fun tq => (tq.1, (runQuery tq).getD []))) by
    exact h qs []
  intro qs
  induction qs with
  | nil => intro seen; rfl
  | cons q rest ih =>
    intro seen
    rw [List.foldl_cons, List.map_cons]
    have hpairs : pairsOf ((q.1, (runQuery q).getD []) ::
        (rest.map fun tq => (tq.1, (runQuery tq).getD [])))
        = (((runQuery q).getD []).map fun i => (q.1, i))
          ++ pairsOf (rest.map fun tq => (tq.1, (runQuery tq).getD [])) := by
      simp [pairsOf]
    rw [hpairs, mergePairs_append]
    have hstep : (match runQuery q with
        | none => seen
        | some results =>
          results.foldl (fun seen item => mergeStep issue.number seen (q.1, item)) seen)
        = mergePairs issue.number seen (((runQuery q).getD []).map fun i => (q.1, i)) := by
      cases hq : runQuery q with
      | none => simp [mergePairs]
      | some results =>
        simp only [Option.getD_some]
        rw [mergePairs, List.foldl_map]
    rw [hstep, ih]

theorem analyze_candidates_nodup (magnets : List Magnet) (srs : List SimilarIssue)
    (fetchIssue : Nat → String × String)
    (hm : (magnets.map fun m => m.number).Nodup)
    (hs : (srs.map fun r => r.number).Nodup) :
    ((analyze_candidates magnets srs fetchIssue).map fun c => c.number).Nodup := by
  unfold analyze_candidates
  rw [List.map_append, List.nodup_append]
  have hA : (((magnets.take 10).map fun m =>
      ({ number := m.number, title := (fetchIssue m.number).1,
         body_preview := pyTruncate (fetchIssue m.number).2 1000,
         source := "known_duplicate_magnet" } : Candidate)).map fun c => c.number)
      = (magnets.map fun m => m.number).take 10 := by
    rw [List.map_map, ← List.map_take]
    rfl
  have hB : ∀ c ∈ (((srs.take 10).filter fun r =>
        ¬ (((magnets.take 10).map fun m => m.number).contains r.number)).map fun r =>
          ({ number := r.number, title := r.title, body_preview := r.body_preview,
             source := "search_result" } : Candidate)),
      c.number ∉ ((magnets.take 10).map fun m => m.number) := by
    intro c hc
    rw [List.mem_map] at hc
    obtain ⟨r, hr, rfl⟩ := hc
    have hp := List.of_mem_filter hr
    simp only [decide_eq_true_eq] at hp
    intro hmem
    exact hp ((contains_iff_mem _ _).mpr hmem)
  refine ⟨?_, ?_, ?_⟩
  · rw [hA]
    exact hm.sublist (List.take_sublist ..)
  · rw [List.map_map]
    have hsub : List.Sublist ((srs.take 10).filter fun r =>
        ¬ (((magnets.take 10).map fun m => m.number).contains r.number)) srs :=
      (List.filter_sublist _).trans (List.take_sublist ..)
    have : (((srs.take 10).filter fun r =>
        ¬ (((magnets.take 10).map fun m => m.number).contains r.number)).map
          fun r => r.number).Nodup := hs.sublist (hsub.map _)
    simpa [Function.comp] using this
  · rw [List.disjoint_right]
    intro n hnB hnA
    rw [List.mem_map] at hnB
    obtain ⟨c, hc, rfl⟩ := hnB
    rw [hA] at hnA
    exact hB c hc (by rw [List.map_take]; exact hnA)

theorem analyze_candidates_magnet_source (magnets : List Magnet) (srs : List SimilarIssue)
    (fetchIssue : Nat → String × String) :
    ∀ c ∈ analyze_candidates magnets srs fetchIssue,
      c.number ∈ ((magnets.take 10).map fun m => m.number) →
        c.source = "known_duplicate_magnet" := by
  intro c hc hnum
  unfold analyze_candidates at hc
  rw [List.mem_append] at hc
  rcases hc with hc | hc
  · rw [List.mem_map] at hc
    obtain ⟨m, hm, rfl⟩ := hc
    rfl
  · rw [List.mem_map] at hc
    obtain ⟨r, hr, rfl⟩ := hc
    have hp := List.of_mem_filter hr
    simp only [decide_eq_true_eq] at hp
    exact absurd ((contains_iff_mem _ _).mpr hnum) hp

/-- C7: within one assembly run the candidate list has at most one candidate
per issue id; ids present both among the selected magnets and among search
results keep the known-magnet provenance; search-result deduplication keeps
each id's first-seen provenance under the executed query order (keyword,
then area, then error pattern), and never records the issue's own number. -/
theorem c7_candidate_assembly
    (issue : CIssue) (das : List String) (d : String)
    (runQuery : String × String → Option (List SearchItem)) (max_searches : Nat)
    (magnets : List Magnet) (fetchIssue : Nat → String × String) :
    ((search_for_similar_issues issue das d runQuery max_searches).map fun r => r.number).Nodup
    ∧ (∀ r ∈ search_for_similar_issues issue das d runQuery max_searches,
        r.number ≠ issue.number ∧
        firstSeenTag (executedResults issue das d runQuery max_searches) r.number
          = some r.source)
    ∧ ((magnets.map fun m => m.number).Nodup →
        ((analyze_candidates magnets
            (search_for_similar_issues issue das d runQuery max_searches) fetchIssue).map
          fun c => c.number).Nodup)
    ∧ (∀ c ∈ analyze_candidates magnets
          (search_for_similar_issues issue das d runQuery max_searches) fetchIssue,
        c.number ∈ ((magnets.take 10).map fun m => m.number) →
          c.source = "known_duplicate_magnet") := by
  have hseq := search_eq_mergePairs issue das d runQuery max_searches
  have hnodup : ((search_for_similar_issues issue das d runQuery max_searches).map
      fun r => r.number).Nodup := by
    rw [hseq]
    exact mergePairs_nodup _ _ [] (by simp)
  refine ⟨hnodup, ?_, ?_, ?_⟩
  · intro r hr
    rw [hseq] at hr
    obtain ⟨-, hown, tag, item, hhead, hrmk⟩ :=
      mergePairs_spec _ _ [] r hr (by simp)
    refine ⟨hown, ?_⟩
    unfold firstSeenTag
    rw [hhead]
    simp [hrmk]
  · intro hmag
    exact analyze_candidates_nodup magnets _ fetchIssue hmag hnodup
  · exact analyze_candidates_magnet_source magnets _ fetchIssue

/-- Witness for `c7_candidate_assembly`: one magnet (id 10) also appears in
the search results; the assembled candidates keep the known-magnet
provenance for id 10. -/
theorem c7_candidate_assembly_witness :
    (([⟨10, ["rust"], 5⟩] : List Magnet).map fun m => m.number).Nodup ∧
      ((analyze_candidates [⟨10, ["rust"], 5⟩]
          (search_for_similar_issues ⟨1, "crash on startup please", "no pattern here"⟩ []
            "2026-08-13"
            (fun _ => some [⟨10, "t10", "open", "2026-10-01", "b10"⟩,
                            ⟨11, "t11", "open", "2026-10-02", "b11"⟩]) 6)
          (fun _ => ("t", "b"))).map fun c => c.number).Nodup :=
  ⟨by decide,
    (c7_candidate_assembly ⟨1, "crash on startup please", "no pattern here"⟩ [] "2026-08-13"
        (fun _ => some [⟨10, "t10", "open", "2026-10-01", "b10"⟩,
                        ⟨11, "t11", "open", "2026-10-02", "b11"⟩]) 6
        [⟨10, ["rust"], 5⟩] (fun _ => ("t", "b"))).2.2.1 (by decide)⟩

/-! ### Facts about the error-pattern scanner -/

theorem uint32_le_iff_toNat (a b : UInt32) : a ≤ b ↔ a.toNat ≤ b.toNat := by
  rw [UInt32.le_def, BitVec.le_def]
  exact Iff.rfl

theorem char_isUpper_iff (c : Char) : c.isUpper = true ↔ 65 ≤ c.toNat ∧ c.toNat ≤ 90 := by
  simp only [Char.isUpper, Bool.and_eq_true, decide_eq_true_eq, ge_iff_le,
    uint32_le_iff_toNat]
  exact Iff.rfl

theorem toLower_eq_self_of_not_upper {c : Char} (h : c.isUpper = false) : c.toLower = c := by
  have hc : ¬ (65 ≤ c.toNat ∧ c.toNat ≤ 90) := by
    intro hc
    rw [(char_isUpper_iff c).mpr hc] at h
    exact absurd h (by simp)
  unfold Char.toLower
  rw [if_neg (by simpa [ge_iff_le] using hc)]

theorem isUpper_false_of_wordChar_false {c : Char} (h : wordChar c = false) :
    c.isUpper = false ∧ c.isAlphanum = false := by
  unfold wordChar at h
  have han : c.isAlphanum = false := (Bool.or_eq_false_iff.mp h).1
  refine ⟨?_, han⟩
  unfold Char.isAlphanum Char.isAlpha at han
  exact ((Bool.or_eq_false_iff.mp (Bool.or_eq_false_iff.mp han).1).1)

theorem panicked_panic_clash {l : List Char}
    (h8 : (l.take 8).map Char.toLower = "panicked".data)
    (hb : boundaryOk (l.drop 5).head? = true) : False := by
  have h5 : ((l.take 8).map Char.toLower)[5]? = some 'k' := by rw [h8]; rfl
  rw [List.getElem?_map] at h5
  have ht : (l.take 8)[5]? = l[5]? := by simp [List.getElem?_take]
  rw [ht] at h5
  obtain ⟨c6, hc6, hlow⟩ := Option.map_eq_some'.mp h5
  have hhead : (l.drop 5).head? = some c6 := by rw [List.head?_drop]; exact hc6
  rw [hhead] at hb
  have hw : wordChar c6 = false := by simpa [boundaryOk] using hb
  obtain ⟨hup, han⟩ := isUpper_false_of_wordChar_false hw
  have hck : c6 = 'k' := by rw [← hlow, toLower_eq_self_of_not_upper hup]
  rw [hck] at han
  exact absurd han (by decide)

theorem take_lower_eq {l k0 k1 : List Char}
    (h0 : (l.take k0.length).map Char.toLower = k0)
    (h1 : (l.take k1.length).map Char.toLower = k1)
    (hle : k0.length ≤ k1.length) : k1.take k0.length = k0 := by
  have h2 : k1.take k0.length = ((l.take k1.length).map Char.toLower).take k0.length := by
    rw [h1]
  rw [h2, ← List.map_take, List.take_take, Nat.min_eq_left hle, h0]

theorem kwHeadMatch_parts {prev : Option Char} {kw l : List Char}
    (h : kwHeadMatch prev kw l = true) :
    (l.take kw.length).map Char.toLower = kw ∧ boundaryOk prev = true ∧
      boundaryOk (l.drop kw.length).head? = true := by
  unfold kwHeadMatch at h
  rw [Bool.and_eq_true, Bool.and_eq_true] at h
  exact ⟨by simpa using h.1.1, h.1.2, h.2⟩

theorem kwHeadMatch_unique {prev : Option Char} {l kw0 kw1 : List Char}
    (h0 : kw0 ∈ errorKeywords) (h1 : kw1 ∈ errorKeywords)
    (hm0 : kwHeadMatch prev kw0 l = true) (hm1 : kwHeadMatch prev kw1 l = true) :
    kw0 = kw1 := by
  obtain ⟨e0, -, b0⟩ := kwHeadMatch_parts hm0
  obtain ⟨e1, -, b1⟩ := kwHeadMatch_parts hm1
  simp only [errorKeywords, List.mem_cons, List.not_mem_nil, or_false] at h0 h1
  rcases h0 with rfl | rfl | rfl | rfl <;> rcases h1 with rfl | rfl | rfl | rfl <;>
    first
      | rfl
      | exact (panicked_panic_clash e1 b0).elim
      | exact (panicked_panic_clash e0 b1).elim
      | exact absurd (take_lower_eq e0 e1 (by decide)) (by decide)
      | exact absurd (take_lower_eq e1 e0 (by decide)) (by decide)

theorem take_all_of_le_takeWhile {rest0 : List Char} {j : Nat}
    (h : j ≤ (rest0.takeWhile isSpacePy).length) :
    (rest0.take j).all isSpacePy = true := by
  have heq : rest0.take j = (rest0.takeWhile isSpacePy).take j := by
    conv_lhs => rw [← @List.takeWhile_append_dropWhile _ isSpacePy rest0]
    rw [List.take_append_of_le_length h]
  rw [heq]
  rw [List.all_eq_true]
  intro a ha
  exact List.mem_takeWhile_imp (List.mem_of_mem_take ha)

theorem capSegment (t : List Char)
    (_h5 : 5 ≤ ((t.takeWhile fun c => c != '\n').take 90).length) :
    ∃ rest2, t = ((t.takeWhile fun c => c != '\n').take 90) ++ rest2 ∧
      (((t.takeWhile fun c => c != '\n').take 90).all fun c => c != '\n') = true ∧
      ((t.takeWhile fun c => c != '\n').take 90).length ≤ 90 := by
  refine ⟨((t.takeWhile fun c => c != '\n').drop 90) ++ t.dropWhile (fun c => c != '\n'),
    ?_, ?_, ?_⟩
  · conv_lhs => rw [← @List.takeWhile_append_dropWhile _ (fun c => c != '\n') t]
    rw [← List.append_assoc, List.take_append_drop]
  · rw [List.all_eq_true]
    intro a ha
    have hmem := List.mem_of_mem_take ha
    simpa using List.mem_takeWhile_imp hmem
  · rw [List.length_take]
    exact Nat.min_le_left ..

theorem captureGo_some {rest0 cap : List Char} :
    ∀ j, j ≤ (rest0.takeWhile isSpacePy).length → captureGo rest0 j = some cap →
      ∃ mid rest2, rest0 = mid ++ cap ++ rest2 ∧ mid.all isSpacePy = true ∧
        (cap.all fun c => c != '\n') = true ∧ 5 ≤ cap.length ∧ cap.length ≤ 90 := by
  intro j
  induction j with
  | zero =>
    intro _ hc
    unfold captureGo at hc
    by_cases h5 : 5 ≤ ((rest0.takeWhile fun c => c != '\n').take 90).length
    · rw [if_pos h5] at hc
      obtain ⟨rest2, hdec, hall, h90⟩ := capSegment rest0 h5
      injection hc with hc
      subst hc
      exact ⟨[], rest2, by simpa using hdec, by simp, hall, h5, h90⟩
    · rw [if_neg h5] at hc
      exact absurd hc (by simp)
  | succ j ih =>
    intro hle hc
    unfold captureGo at hc
    by_cases h5 : 5 ≤ (((rest0.drop (j + 1)).takeWhile fun c => c != '\n').take 90).length
    · rw [if_pos h5] at hc
      obtain ⟨rest2, hdec, hall, h90⟩ := capSegment (rest0.drop (j + 1)) h5
      injection hc with hc
      subst hc
      refine ⟨rest0.take (j + 1), rest2, ?_, take_all_of_le_takeWhile hle, hall, h5, h90⟩
      rw [List.append_assoc, ← hdec, List.take_append_drop]
    · rw [if_neg h5] at hc
      exact ih (Nat.le_of_succ_le hle) hc

theorem captureGo_isSome_of {rest0 : List Char} {j : Nat}
    (h5 : 5 ≤ (((rest0.drop j).takeWhile fun c => c != '\n').take 90).length) :
    ∀ J, j ≤ J → (captureGo rest0 J).isSome = true := by
  intro J
  induction J with
  | zero =>
    intro hle
    have hj : j = 0 := Nat.le_zero.mp hle
    subst hj
    unfold captureGo
    rw [if_pos (by simpa using h5)]
    rfl
  | succ J ih =>
    intro hle
    unfold captureGo
    by_cases h : 5 ≤ (((rest0.drop (J + 1)).takeWhile fun c => c != '\n').take 90).length
    · rw [if_pos h]; rfl
    · rw [if_neg h]
      apply ih
      by_cases hj : j = J + 1
      · subst hj; exact absurd h5 h
      · omega

theorem tryCapture_some {rest0 cap : List Char} (h : tryCapture rest0 = some cap) :
    ∃ mid rest2, rest0 = mid ++ cap ++ rest2 ∧ mid.all isSpacePy = true ∧
      (cap.all fun c => c != '\n') = true ∧ 5 ≤ cap.length ∧ cap.length ≤ 90 :=
  captureGo_some _ (Nat.le_refl _) h

theorem tryCapture_isSome {mid cap rest2 : List Char}
    (hmid : mid.all isSpacePy = true) (hcap : (cap.all fun c => c != '\n') = true)
    (h5 : 5 ≤ cap.length) :
    (tryCapture (mid ++ cap ++ rest2)).isSome = true := by
  unfold tryCapture
  refine @captureGo_isSome_of _ mid.length ?_ _ ?_
  · rw [List.append_assoc, List.drop_left]
    rw [List.takeWhile_append_of_pos (List.all_eq_true.mp hcap)]
    rw [List.length_take, List.length_append]
    omega
  · rw [List.append_assoc, List.takeWhile_append_of_pos (List.all_eq_true.mp hmid)]
    rw [List.length_append]
    omega

theorem tryMatchAt_some {prev : Option Char} {l cap : List Char}
    (h : tryMatchAt prev l = some cap) :
    ∃ kw, kw ∈ errorKeywords ∧ kwHeadMatch prev kw l = true ∧
      tryCapture (l.drop kw.length) = some cap := by
  unfold tryMatchAt at h
  cases hf : errorKeywords.find? (fun kw => kwHeadMatch prev kw l) with
  | none => rw [hf] at h; exact absurd h (by simp)
  | some kw =>
    rw [hf] at h
    exact ⟨kw, List.mem_of_find?_eq_some hf, by simpa using List.find?_some hf, h⟩

theorem tryMatchAt_isSome_of {prev : Option Char} {l kw : List Char}
    (hmem : kw ∈ errorKeywords) (hm : kwHeadMatch prev kw l = true)
    (hcap : (tryCapture (l.drop kw.length)).isSome = true) :
    (tryMatchAt prev l).isSome = true := by
  unfold tryMatchAt
  cases hf : errorKeywords.find? (fun k => kwHeadMatch prev k l) with
  | none =>
    have hn := List.find?_eq_none.mp hf kw hmem
    exact absurd hm (by simpa using hn)
  | some kw1 =>
    have heq : kw1 = kw :=
      kwHeadMatch_unique (List.mem_of_find?_eq_some hf) hmem
        (by simpa using List.find?_some hf) hm
    rw [heq]
    exact hcap

/-- The character governing the left `\b` boundary for a match that starts
after the prefix `pre` (the scan's running previous character when `pre` is
empty). -/
def lastOr (prev : Option Char) (pre : List Char) : Option Char :=
  match pre.getLast? with
  | none => prev
  | some c => some c

theorem lastOr_cons (prev : Option Char) (x : Char) (pre : List Char) :
    lastOr prev (x :: pre) = lastOr (some x) pre := by
  cases pre with
  | nil => rfl
  | cons y t =>
    unfold lastOr
    rw [List.getLast?_cons_cons]
    cases h : (y :: t).getLast? with
    | none => exact absurd h (by simp)
    | some z => rfl

/-- A decomposed witness that the error pattern
`(?i:\b(?:error|panicked|panic|failed)\b)\s*([^\n]{5,90})` matches somewhere
in `l`, when the character before `l` is `prev`: a keyword occurrence
(case-insensitive) with word boundaries on both sides, followed by optional
whitespace (which may include line breaks) and then 5–90 non-newline
characters. -/
def errScanWitness (prev : Option Char) (l : List Char) : Prop :=
  ∃ pre kw mid cap rest2 : List Char,
    l = pre ++ kw ++ mid ++ cap ++ rest2
    ∧ (kw.map Char.toLower) ∈ errorKeywords
    ∧ boundaryOk (lastOr prev pre) = true
    ∧ boundaryOk (mid ++ cap ++ rest2).head? = true
    ∧ mid.all isSpacePy = true
    ∧ (cap.all fun c => c != '\n') = true
    ∧ 5 ≤ cap.length ∧ cap.length ≤ 90

/-- The error pattern matches somewhere in `body`. -/
def errPatternWitness (body : List Char) : Prop :=
  errScanWitness none body

theorem errorSearchGo_isSome_iff :
    ∀ (l : List Char) (prev : Option Char),
      (errorSearchGo prev l).isSome = true ↔ errScanWitness prev l := by
  intro l
  induction l with
  | nil =>
    intro prev
    constructor
    · intro h; exact absurd h (by simp [errorSearchGo])
    · rintro ⟨pre, kw, mid, cap, rest2, hdec, hkw, -, -, -, -, h5, -⟩
      have hlen := congrArg List.length hdec
      simp only [List.length_nil, List.length_append] at hlen
      omega
  | cons c rest ih =>
    intro prev
    cases hm : tryMatchAt prev (c :: rest) with
    | some cap =>
      have hE : errorSearchGo prev (c :: rest)
          = match tryMatchAt prev (c :: rest) with
            | some cap => some cap
            | none => errorSearchGo (some c) rest := rfl
      have hl : (errorSearchGo prev (c :: rest)).isSome = true := by
        rw [hE, hm]; rfl
      refine iff_of_true hl ?_
      obtain ⟨kw, hkmem, hkm, hcap⟩ := tryMatchAt_some hm
      obtain ⟨heq, hbprev, hbhead⟩ := kwHeadMatch_parts hkm
      obtain ⟨mid, rest2, hdecomp, hmid, hcapall, h5, h90⟩ := tryCapture_some hcap
      refine ⟨[], (c :: rest).take kw.length, mid, cap, rest2, ?_, by rw [heq]; exact hkmem,
        by simpa [lastOr] using hbprev, ?_, hmid, hcapall, h5, h90⟩
      · have hsplit : (c :: rest) =
            (c :: rest).take kw.length ++ (c :: rest).drop kw.length :=
          (List.take_append_drop ..).symm
        rw [hdecomp] at hsplit
        simpa [List.append_assoc] using hsplit
      · rw [← hdecomp]
        exact hbhead
    | none =>
      have hE : errorSearchGo prev (c :: rest)
          = match tryMatchAt prev (c :: rest) with
            | some cap => some cap
            | none => errorSearchGo (some c) rest := rfl
      have hstep : errorSearchGo prev (c :: rest) = errorSearchGo (some c) rest := by
        rw [hE, hm]
      rw [hstep, ih (some c)]
      constructor
      · rintro ⟨pre, kw, mid, cap, rest2, hdec, hkw, hb1, hb2, hmid, hcap, h5, h90⟩
        refine ⟨c :: pre, kw, mid, cap, rest2, by simp [hdec], hkw, ?_, hb2, hmid, hcap,
          h5, h90⟩
        rw [lastOr_cons]
        exact hb1
      · rintro ⟨pre, kw, mid, cap, rest2, hdec, hkw, hb1, hb2, hmid, hcap, h5, h90⟩
        cases pre with
        | cons c0 pre2 =>
          have hdec2 : c = c0 ∧ rest = pre2 ++ kw ++ mid ++ cap ++ rest2 := by
            have h0 := hdec
            simp only [List.cons_append, List.cons_eq_cons] at h0
            exact h0
          refine ⟨pre2, kw, mid, cap, rest2, hdec2.2, hkw, ?_, hb2, hmid, hcap, h5, h90⟩
          rw [← lastOr_cons prev c pre2]
          rw [hdec2.1]
          exact hb1
        | nil =>
          exfalso
          have hl : c :: rest = kw ++ (mid ++ cap ++ rest2) := by
            simpa [List.append_assoc] using hdec
          have hkwlen : (kw.map Char.toLower).length = kw.length := List.length_map ..
          have htake : (c :: rest).take (kw.map Char.toLower).length = kw := by
            rw [hl, hkwlen, List.take_left]
          have hdrop : (c :: rest).drop (kw.map Char.toLower).length
              = mid ++ cap ++ rest2 := by
            rw [hl, hkwlen, List.drop_left]
          have hkm : kwHeadMatch prev (kw.map Char.toLower) (c :: rest) = true := by
            unfold kwHeadMatch
            rw [htake, hdrop]
            have hb1p : boundaryOk prev = true := by simpa [lastOr] using hb1
            rw [Bool.and_eq_true, Bool.and_eq_true]
            exact ⟨⟨by simp, hb1p⟩, hb2⟩
          have hcapsome :
              (tryCapture ((c :: rest).drop (kw.map Char.toLower).length)).isSome = true := by
            rw [hdrop]
            exact tryCapture_isSome hmid hcap h5
          have hsome := tryMatchAt_isSome_of hkw hkm hcapsome
          rw [hm] at hsome
          exact absurd hsome (by simp)

theorem errorSearch_isSome_iff (body : List Char) :
    (errorSearch body).isSome = true ↔ errPatternWitness body :=
  errorSearchGo_isSome_iff body none

/-- The claim's reading, as a second definition for comparison with the
code: some line of the body contains a case-insensitive whole-word keyword
occurrence followed by at least 5 further characters *of the same line*
(with at least 5 of them present; the 90-character cap never prevents a
match, as a longer tail still yields a 90-character capture). -/
def sameLineGo : Option Char → List Char → Bool
  | _, [] => false
  | prev, c :: rest =>
    (match errorKeywords.find? fun kw => kwHeadMatch prev kw (c :: rest) with
     | some kw => decide (5 ≤ ((c :: rest).drop kw.length).length)
     | none => false)
    || sameLineGo (some c) rest

/-- The claim's issuance condition: a whole-word keyword occurrence followed
by 5–90 characters of the same line. -/
def claimSameLineErrorIssued (body : String) : Bool :=
  (pySplitLines body.data).any fun line => sameLineGo none line

/-- C10 (counterexample): on the body `"panic\nabcdefgh"` no keyword is
followed by 5–90 characters of the same line (the claim says the query is
skipped), yet the code issues the error-pattern query: the regex's `\s*`
crosses the line break and captures `"abcdefgh"` from the next line. -/
theorem c10_counterexample :
    ¬ ((((buildQueries ⟨1, "x", "panic\nabcdefgh"⟩ [] "2026-08-13").filter
          fun q => q.1 == "error_pattern").isEmpty = false)
        ↔ claimSameLineErrorIssued "panic\nabcdefgh" = true) := by decide

/-- C10 (amended): the error-pattern query is present in the query list iff
the body contains a case-insensitive whole-word occurrence of "error",
"panicked", "panic" or "failed" followed — after optional whitespace, which
may span line breaks — by 5–90 non-newline characters; when present, its
exact-phrase text is the trimmed captured text of the first such
occurrence (the capture returned by `errorSearch`); otherwise the query is
skipped. -/
theorem c10_error_pattern_query (issue : CIssue) (das : List String) (d : String) :
    ((buildQueries issue das d).filter fun q => q.1 == "error_pattern")
      = (match errorSearch issue.body.data with
         | some cap => [("error_pattern",
             base_query ++ " in:body \"" ++ (⟨pyStripChars cap⟩ : String) ++ "\"")]
         | none => [])
    ∧ ((errorSearch issue.body.data).isSome = true ↔ errPatternWitness issue.body.data) := by
  refine ⟨?_, errorSearch_isSome_iff issue.body.data⟩
  unfold buildQueries
  rw [List.filter_append, List.filter_append]
  have h1 : (if (title_keywords issue.title).isEmpty then ([] : List (String × String))
      else [("title_keywords",
        base_query ++ " " ++ pyJoin " " (title_keywords issue.title))]).filter
        (fun q => q.1 == "error_pattern") = [] := by
    split
    · rfl
    · rw [List.filter_cons,
        if_neg (show ¬ (("title_keywords" : String) == "error_pattern") = true by decide)]
      rfl
  have h2 : ((das.map fun area =>
      ("area_label", base_query ++ " label:\"area:" ++ area ++ "\" created:>" ++ d)).filter
        fun q => q.1 == "error_pattern") = [] := by
    rw [List.filter_eq_nil_iff]
    intro q hq
    rw [List.mem_map] at hq
    obtain ⟨a, -, rfl⟩ := hq
    exact show ¬ (("area_label" : String) == "error_pattern") = true by decide
  rw [h1, h2]
  simp only [List.nil_append]
  cases hes : errorSearch issue.body.data with
  | some cap =>
    rw [List.filter_cons,
      if_pos (show (("error_pattern" : String) == "error_pattern") = true by decide)]
    rfl
  | none => rfl

/-! ## Decimal digits: `int(str(n)) = n` -/

theorem digitsGo_zero (fuel : Nat) (acc : List Char) : digitsGo fuel 0 acc = acc := by
  cases fuel <;> rfl

theorem digitsGo_fuel_irrel :
    ∀ (n f1 f2 : Nat) (acc : List Char), n ≤ f1 → n ≤ f2 →
      digitsGo f1 n acc = digitsGo f2 n acc := by
  intro n
  induction n using Nat.strong_induction_on with
  | _ n ih =>
    intro f1 f2 acc h1 h2
    cases n with
    | zero => rw [digitsGo_zero, digitsGo_zero]
    | succ m =>
      cases f1 with
      | zero => omega
      | succ g1 =>
        cases f2 with
        | zero => omega
        | succ g2 =>
          show digitsGo g1 ((m + 1) / 10) (digitChar ((m + 1) % 10) :: acc)
            = digitsGo g2 ((m + 1) / 10) (digitChar ((m + 1) % 10) :: acc)
          have hlt : (m + 1) / 10 < m + 1 := Nat.div_lt_self (Nat.succ_pos m) (by omega)
          exact ih _ hlt g1 g2 _ (by omega) (by omega)

theorem digitsGo_acc (fuel : Nat) :
    ∀ (n : Nat) (acc : List Char), n ≤ fuel →
      digitsGo fuel n acc = digitsGo fuel n [] ++ acc := by
  induction fuel with
  | zero => intro n acc _; rfl
  | succ f ih =>
    intro n acc _
    cases n with
    | zero => rw [digitsGo_zero, digitsGo_zero]; rfl
    | succ m =>
      show digitsGo f ((m + 1) / 10) (digitChar ((m + 1) % 10) :: acc)
        = digitsGo f ((m + 1) / 10) (digitChar ((m + 1) % 10) :: []) ++ acc
      have hle : (m + 1) / 10 ≤ f := by
        have := Nat.div_lt_self (Nat.succ_pos m) (show 1 < 10 by omega)
        omega
      rw [ih _ _ hle, ih _ ([digitChar ((m + 1) % 10)]) hle, List.append_assoc]
      rfl

theorem digitChar_toNat {d : Nat} (h : d < 10) : (digitChar d).toNat = 48 + d := by
  interval_cases d <;> rfl

theorem digitChar_isDigit {d : Nat} (h : d < 10) : isDigitChar (digitChar d) = true := by
  interval_cases d <;> rfl

theorem digitsVal_append_one (l : List Char) (c : Char) :
    digitsVal (l ++ [c]) = 10 * digitsVal l + (c.toNat - 48) := by
  unfold digitsVal
  rw [List.foldl_append]
  rfl

theorem natDigits_core :
    ∀ n : Nat, 0 < n →
      (digitsGo n n []).all isDigitChar = true ∧ digitsGo n n [] ≠ [] ∧
        digitsVal (digitsGo n n []) = n := by
  intro n
  induction n using Nat.strong_induction_on with
  | _ n ih =>
    intro hpos
    cases n with
    | zero => omega
    | succ m =>
      have hstep : digitsGo (m + 1) (m + 1) []
          = digitsGo m ((m + 1) / 10) [digitChar ((m + 1) % 10)] := rfl
      have hmod : (m + 1) % 10 < 10 := Nat.mod_lt _ (by omega)
      by_cases hsmall : (m + 1) / 10 = 0
      · rw [hstep, hsmall, digitsGo_zero]
        refine ⟨by simp [digitChar_isDigit hmod], by simp, ?_⟩
        show digitsVal [digitChar ((m + 1) % 10)] = m + 1
        unfold digitsVal
        simp only [List.foldl_cons, List.foldl_nil]
        rw [digitChar_toNat hmod]
        omega
      · have hq : 0 < (m + 1) / 10 := Nat.pos_of_ne_zero hsmall
        have hlt : (m + 1) / 10 < m + 1 := Nat.div_lt_self (Nat.succ_pos m) (by omega)
        have hfuel : digitsGo m ((m + 1) / 10) [digitChar ((m + 1) % 10)]
            = digitsGo ((m + 1) / 10) ((m + 1) / 10) [digitChar ((m + 1) % 10)] :=
          digitsGo_fuel_irrel _ _ _ _ (by omega) (Nat.le_refl _)
        obtain ⟨hall, hne, hval⟩ := ih _ hlt hq
        rw [hstep, hfuel, digitsGo_acc _ _ _ (Nat.le_refl _)]
        refine ⟨?_, by simp, ?_⟩
        · rw [List.all_append, hall]
          simp [digitChar_isDigit hmod]
        · rw [digitsVal_append_one, hval, digitChar_toNat hmod]
          omega

theorem natDigits_all (n : Nat) : (natDigits n).all isDigitChar = true := by
  unfold natDigits
  by_cases h : n = 0
  · rw [if_pos h]; rfl
  · rw [if_neg h]; exact (natDigits_core n (Nat.pos_of_ne_zero h)).1

theorem natDigits_ne_nil (n : Nat) : natDigits n ≠ [] := by
  unfold natDigits
  by_cases h : n = 0
  · rw [if_pos h]; simp
  · rw [if_neg h]; exact (natDigits_core n (Nat.pos_of_ne_zero h)).2.1

theorem pyInt_natDigits (n : Nat) : pyInt? (natDigits n) = some n := by
  have hval : digitsVal (natDigits n) = n := by
    unfold natDigits
    by_cases h : n = 0
    · rw [if_pos h, h]; rfl
    · rw [if_neg h]; exact (natDigits_core n (Nat.pos_of_ne_zero h)).2.2
  unfold pyInt?
  rw [if_pos, hval]
  rw [Bool.and_eq_true]
  exact ⟨by simpa [List.isEmpty_iff] using natDigits_ne_nil n, natDigits_all n⟩

/-! ## Catalog generator: `build_markdown_body`
(`github-find-top-duplicated-bugs.py`, lines 148–178)

The input records come from `extract_duplicate_info`: issue number, issue
url, area labels (`["(unlabeled)"]` when the issue has no area label) and
the duplicate count.  `defaultdict`/`Counter` (insertion-ordered dicts) are
modelled as insertion-ordered association lists; `Counter.most_common()` and
`sorted(..., reverse=True)` are stable descending sorts. -/

/-- A record produced by `extract_duplicate_info`. -/
structure RecInfo where
  number : Nat
  url : String
  areas : List String
  duplicate_count : Nat
deriving DecidableEq, Repr

/-- The GitHub issue url for this repository's issue `n` (the GraphQL `url`
field of the scanned issues). -/
def issuesUrl (n : Nat) : String :=
  "https://github.com/zed-industries/zed/issues/" ++ natStr n

/-- Append `r` to the bucket of area `a` (`by_area[area].append(info)`). -/
def addToBucket (bs : List (String × List RecInfo)) (a : String) (r : RecInfo) :
    List (String × List RecInfo) :=
  if bs.any fun b => b.1 == a then
    bs.map fun b => if b.1 == a then (b.1, b.2 ++ [r]) else b
  else bs ++ [(a, [r])]

/-- The `by_area` defaultdict after the grouping loop. -/
def by_area (rs : List RecInfo) : List (String × List RecInfo) :=
  rs.foldl (fun bs r => r.areas.foldl (fun bs a => addToBucket bs a r) bs) []

/-- Add `k` to the counter of area `a` (`area_totals[area] += ...`). -/
def addTotal (ts : List (String × Nat)) (a : String) (k : Nat) : List (String × Nat) :=
  if ts.any fun t => t.1 == a then
    ts.map fun t => if t.1 == a then (t.1, t.2 + k) else t
  else ts ++ [(a, k)]

/-- The `area_totals` Counter after the grouping loop. -/
def area_totals (rs : List RecInfo) : List (String × Nat) :=
  rs.foldl (fun ts r => r.areas.foldl (fun ts a => addTotal ts a r.duplicate_count) ts) []

instance totalsDescTotal : IsTotal (String × Nat) (fun a b => b.2 ≤ a.2) :=
  ⟨fun a b => (Nat.le_total b.2 a.2).imp id id⟩

instance totalsDescTrans : IsTrans (String × Nat) (fun a b => b.2 ≤ a.2) :=
  ⟨fun _ _ _ hab hbc => Nat.le_trans hbc hab⟩

instance recDescTotal : IsTotal RecInfo (fun a b => b.duplicate_count ≤ a.duplicate_count) :=
  ⟨fun a b => (Nat.le_total b.duplicate_count a.duplicate_count).imp id id⟩

instance recDescTrans : IsTrans RecInfo (fun a b => b.duplicate_count ≤ a.duplicate_count) :=
  ⟨fun _ _ _ hab hbc => Nat.le_trans hbc hab⟩

/-- `Counter.most_common()`: entries sorted by count, largest first, ties in
insertion order (stable). -/
def most_common (ts : List (String × Nat)) : List (String × Nat) :=
  List.insertionSort (fun a b => b.2 ≤ a.2) ts

/-- Models the f-string field `{n:2d}` (right-aligned, width 2). -/
def pad2 (n : Nat) : String :=
  if n < 10 then " " ++ natStr n else natStr n

/-- One bullet line: `-   [{duplicate_count:2d} dupes] {url}`. -/
def bulletLine (r : RecInfo) : String :=
  "-   [" ++ pad2 r.duplicate_count ++ " dupes] " ++ r.url

/-- The catalog's introductory line. -/
def introLine : String :=
  "These are the issues that are frequently re-reported. "
    ++ "The list is generated regularly by running a script."

/-- `by_area[area]` lookup (always present for areas produced by the loop). -/
def lookupBucket (bs : List (String × List RecInfo)) (a : String) : List RecInfo :=
  match bs.find? fun b => b.1 == a with
  | some b => b.2
  | none => []

/-- The generated catalog lines: the intro, then per area (in
`most_common()` order) a blank line, the `## <area>` header, a blank line
and the area's issues sorted by duplicate count, most duplicated first. -/
def build_lines (rs : List RecInfo) : List String :=
  (most_common (area_totals rs)).foldl
    (fun lines t =>
      let issues := List.insertionSort
        (fun a b => b.duplicate_count ≤ a.duplicate_count) (lookupBucket (by_area rs) t.1)
      lines ++ ["", "## " ++ t.1, ""] ++ issues.map bulletLine)
    [introLine]

/-- `build_markdown_body`: the generated lines joined with `"\n"`. -/
def build_markdown_body (rs : List RecInfo) : String :=
  ⟨List.intercalate ("\n".data) ((build_lines rs).map fun s => s.data)⟩

/-! ## Bullet-line parsing facts -/

theorem breakOnFirst_cons (sep : List Char) (c : Char) (t : List Char) :
    breakOnFirst sep (c :: t) =
      if sep.isPrefixOf (c :: t) then some ([], (c :: t).drop sep.length)
      else (breakOnFirst sep t).map fun p => (c :: p.1, p.2) := rfl

theorem isPrefixOf_cons_false {s0 c : Char} {srest rest : List Char} (h : c ≠ s0) :
    (s0 :: srest).isPrefixOf (c :: rest) = false := by
  show ((s0 == c) && srest.isPrefixOf rest) = false
  have hb : (s0 == c) = false := beq_eq_false_iff_ne.mpr (Ne.symm h)
  rw [hb, Bool.false_and]

theorem isPrefixOf_self_append (p t : List Char) : p.isPrefixOf (p ++ t) = true :=
  (isPrefixOf_iff_exists p (p ++ t)).mpr ⟨t, rfl⟩

theorem breakOnFirst_here {s0 : Char} {srest b : List Char} :
    breakOnFirst (s0 :: srest) ((s0 :: srest) ++ b) = some ([], b) := by
  rw [List.cons_append, breakOnFirst_cons]
  have hp : (s0 :: srest).isPrefixOf (s0 :: (srest ++ b)) = true :=
    isPrefixOf_self_append (s0 :: srest) b
  rw [if_pos hp]
  have hd : (s0 :: (srest ++ b)).drop (s0 :: srest).length = b := by
    rw [show (s0 :: (srest ++ b)) = (s0 :: srest) ++ b from rfl, List.drop_left]
  rw [hd]

theorem breakOnFirst_none_of_head_ne {s0 : Char} {srest : List Char} :
    ∀ {l : List Char}, (∀ c ∈ l, c ≠ s0) → breakOnFirst (s0 :: srest) l = none := by
  intro l
  induction l with
  | nil => intro _; rfl
  | cons c t ih =>
    intro h
    rw [breakOnFirst_cons]
    have hf : (s0 :: srest).isPrefixOf (c :: t) = false :=
      isPrefixOf_cons_false (h c (List.mem_cons_self ..))
    rw [if_neg (by rw [hf]; simp)]
    rw [ih fun d hd => h d (List.mem_cons_of_mem _ hd)]
    rfl

theorem breakOnFirst_skip {sep : List Char} :
    ∀ {seg rest : List Char},
      (∀ i, i < seg.length → sep.isPrefixOf (seg.drop i ++ rest) = false) →
      breakOnFirst sep (seg ++ rest)
        = (breakOnFirst sep rest).map fun p => (seg ++ p.1, p.2) := by
  intro seg
  induction seg with
  | nil =>
    intro rest _
    rw [List.nil_append]
    cases h : breakOnFirst sep rest with
    | none => rfl
    | some p => simp
  | cons c seg2 ih =>
    intro rest hno
    rw [List.cons_append, breakOnFirst_cons]
    have h0 : sep.isPrefixOf (c :: (seg2 ++ rest)) = false := by
      have h0 := hno 0 (by simp)
      simpa using h0
    rw [if_neg (by rw [h0]; simp)]
    rw [ih fun i hi => by
      have hi2 := hno (i + 1) (by simpa using Nat.succ_lt_succ hi)
      simpa using hi2]
    cases h : breakOnFirst sep rest with
    | none => rfl
    | some p => simp

theorem isPrefixOf_append_left (p : List Char) :
    ∀ (X Y : List Char), p.length ≤ X.length → p.isPrefixOf (X ++ Y) = p.isPrefixOf X := by
  induction p with
  | nil => intro X Y _; simp [List.isPrefixOf]
  | cons p0 pr ih =>
    intro X Y h
    cases X with
    | nil => simp at h
    | cons x xr =>
      show ((p0 == x) && pr.isPrefixOf (xr ++ Y)) = ((p0 == x) && pr.isPrefixOf xr)
      rw [ih xr Y (by simpa using h)]

theorem digit_not_space {c : Char} (h : isDigitChar c = true) : isSpacePy c = false := by
  cases hs : isSpacePy c
  · rfl
  · exfalso
    unfold isSpacePy at hs
    rcases Bool.or_eq_true .. |>.mp hs with h5 | h6
    on_goal 2 => rw [beq_iff_eq] at h6; subst h6; exact absurd h (by decide)
    rcases Bool.or_eq_true .. |>.mp h5 with h3 | h4
    on_goal 2 => rw [beq_iff_eq] at h4; subst h4; exact absurd h (by decide)
    rcases Bool.or_eq_true .. |>.mp h3 with h1 | h2
    on_goal 2 => rw [beq_iff_eq] at h2; subst h2; exact absurd h (by decide)
    rcases Bool.or_eq_true .. |>.mp h1 with h0 | h1b
    on_goal 2 => rw [beq_iff_eq] at h1b; subst h1b; exact absurd h (by decide)
    rcases Bool.or_eq_true .. |>.mp h0 with h0a | h0b
    · rw [beq_iff_eq] at h0a; subst h0a; exact absurd h (by decide)
    · rw [beq_iff_eq] at h0b; subst h0b; exact absurd h (by decide)

theorem digit_ne {c d : Char} (hc : isDigitChar c = true) (hd : isDigitChar d = false) :
    c ≠ d := by
  intro he
  rw [he, hd] at hc
  cases hc

theorem pyFirstToken_digits {ds tail : List Char} (hall : ds.all isDigitChar = true)
    (hne : ds ≠ []) (htail : tail.head? = none ∨ tail.head? = some ' ') :
    pyFirstToken (ds ++ tail) = some ds := by
  cases ds with
  | nil => exact absurd rfl hne
  | cons d dt =>
    have hd : isDigitChar d = true := by
      rw [List.all_cons, Bool.and_eq_true] at hall
      exact hall.1
    unfold pyFirstToken
    have hdrop : ((d :: dt) ++ tail).dropWhile isSpacePy = (d :: dt) ++ tail := by
      rw [List.cons_append]
      rw [List.dropWhile_cons_of_neg (by rw [digit_not_space hd]; simp)]
    rw [hdrop]
    have htake : ((d :: dt) ++ tail).takeWhile (fun c => !isSpacePy c) = d :: dt := by
      rw [List.takeWhile_append_of_pos (by
        intro a ha
        rw [digit_not_space (List.all_eq_true.mp hall a ha)]
        rfl)]
      rcases htail with h | h
      · rw [List.head?_eq_none_iff.mp h]
        simp
      · cases tail with
        | nil => cases h
        | cons t0 tr =>
          injection h with h
          subst h
          rw [List.takeWhile_cons_of_neg (by simp [isSpacePy])]
          simp
    rw [htake]
    rw [if_neg (by simp)]

theorem pyRstripParen_digits {ds : List Char} (hall : ds.all isDigitChar = true) :
    pyRstripParen ds = ds := by
  unfold pyRstripParen
  cases hrev : ds.reverse with
  | nil =>
    rw [List.dropWhile_nil, ← hrev, List.reverse_reverse]
  | cons c t =>
    have hc : c ∈ ds := by
      rw [← List.mem_reverse, hrev]
      exact List.mem_cons_self ..
    rw [List.dropWhile_cons_of_neg (by
      rw [show ((c == ')') = false) from by
        simpa using digit_ne (List.all_eq_true.mp hall c hc) (by decide)]
      simp)]
    rw [← hrev, List.reverse_reverse]

theorem pyFirstToken_cons_space (x : List Char) :
    pyFirstToken (' ' :: x) = pyFirstToken x := by
  unfold pyFirstToken
  rw [List.dropWhile_cons_of_pos (by decide)]

theorem breakOnFirst_skip_head {s0 : Char} {srest seg rest : List Char}
    (h : ∀ c ∈ seg, c ≠ s0) :
    breakOnFirst (s0 :: srest) (seg ++ rest)
      = (breakOnFirst (s0 :: srest) rest).map fun p => (seg ++ p.1, p.2) := by
  apply breakOnFirst_skip
  intro i hi
  cases hd : seg.drop i with
  | nil =>
    have hlen := congrArg List.length hd
    rw [List.length_drop] at hlen
    simp at hlen
    omega
  | cons x xs =>
    have hx : x ∈ seg := by
      have hx0 : x ∈ seg.drop i := by
        rw [hd]
        exact List.mem_cons_self ..
      exact List.mem_of_mem_drop hx0
    exact isPrefixOf_cons_false (h x hx)

theorem pad2_chars {cnt : Nat} : ∀ c ∈ (pad2 cnt).data, c = ' ' ∨ isDigitChar c = true := by
  intro c hc
  unfold pad2 at hc
  split at hc
  · rw [String.data_append] at hc
    rcases List.mem_append.mp hc with h | h
    · left
      simpa using h
    · right
      exact List.all_eq_true.mp (natDigits_all cnt) c h
  · right
    exact List.all_eq_true.mp (natDigits_all cnt) c hc

/-- The fixed url stem of this repository's issues. -/
def urlStem : List Char := "https://github.com/zed-industries/zed/issues/".data

/-- The bullet-line text between the count and the first `/issues/`. -/
def segMid : List Char := " dupes] https://github.com/zed-industries/zed".data

/-- The `/issues/` separator. -/
def issSep : List Char := "/issues/".data

theorem seg_split : " dupes] ".data ++ urlStem = segMid ++ issSep := by decide

theorem issuesUrl_data (n : Nat) : (issuesUrl n).data = urlStem ++ natDigits n := by
  unfold issuesUrl urlStem natStr
  rw [String.data_append]

theorem bulletData (cnt n : Nat) :
    ("-   [" ++ pad2 cnt ++ " dupes] " ++ issuesUrl n).data
      = "-   [".data ++ ((pad2 cnt).data ++ (" dupes] ".data ++ (urlStem ++ natDigits n))) := by
  rw [String.data_append, String.data_append, String.data_append, issuesUrl_data]
  simp [List.append_assoc]

theorem break_lbracket (rest1 : List Char) :
    breakOnFirst ("[".data) ("-   [".data ++ rest1) = some ("-   ".data, rest1) := by
  show breakOnFirst ('[' :: []) ("-   [".data ++ rest1) = some ("-   ".data, rest1)
  have hsplit : "-   [".data ++ rest1 = "-   ".data ++ (('[' :: []) ++ rest1) := by
    rw [← List.append_assoc]
    rfl
  rw [hsplit, breakOnFirst_skip_head (by decide), breakOnFirst_here]
  simp

theorem break_iss (pd D : List Char)
    (hpd : ∀ c ∈ pd, c = ' ' ∨ isDigitChar c = true)
    (_hD : D.all isDigitChar = true) :
    breakOnFirst issSep ("-   [".data ++ (pd ++ (" dupes] ".data ++ (urlStem ++ D))))
      = some ("-   [".data ++ (pd ++ segMid), D) := by
  have h1 : " dupes] ".data ++ (urlStem ++ D) = segMid ++ (issSep ++ D) := by
    rw [← List.append_assoc, seg_split, List.append_assoc]
  rw [h1, show issSep = '/' :: "issues/".data from rfl]
  rw [breakOnFirst_skip_head (show ∀ c ∈ "-   [".data, c ≠ '/' by decide)]
  rw [breakOnFirst_skip_head (show ∀ c ∈ pd, c ≠ '/' from fun c hc => by
    rcases hpd c hc with rfl | hd
    · decide
    · exact digit_ne hd (by decide))]
  have hlen53 : (segMid ++ ('/' :: "issues/".data)).length = 53 := by decide
  have hdec : ∀ i, i < 45 →
      ('/' :: "issues/".data).isPrefixOf ((segMid ++ ('/' :: "issues/".data)).drop i)
        = false := by decide
  rw [breakOnFirst_skip (show ∀ i, i < segMid.length →
      ('/' :: "issues/".data).isPrefixOf
        (segMid.drop i ++ (('/' :: "issues/".data) ++ D)) = false from by
    intro i hi
    have hi45 : i < 45 := by
      have : segMid.length = 45 := by decide
      omega
    have hd : segMid.drop i ++ (('/' :: "issues/".data) ++ D)
        = ((segMid ++ ('/' :: "issues/".data)).drop i) ++ D := by
      rw [List.drop_append_of_le_length (by omega), List.append_assoc]
    rw [hd]
    rw [isPrefixOf_append_left _ _ _ (by
      rw [List.length_drop, hlen53]
      show 8 ≤ 53 - i
      omega)]
    exact hdec i hi45)]
  rw [breakOnFirst_here]
  simp

theorem parseBulletCounts_roundtrip (cnt n : Nat) :
    parseBulletCounts ("-   [" ++ pad2 cnt ++ " dupes] " ++ issuesUrl n).data
      = some (cnt, n) := by
  rw [bulletData]
  have hrest1 : ∀ c ∈ (pad2 cnt).data ++ (" dupes] ".data ++ (urlStem ++ natDigits n)),
      c ≠ '[' := by
    intro c hc
    rcases List.mem_append.mp hc with h | h
    · rcases pad2_chars c h with rfl | hd
      · decide
      · exact digit_ne hd (by decide)
    · rcases List.mem_append.mp h with h | h
      · exact (show ∀ c ∈ " dupes] ".data, c ≠ '[' by decide) c h
      · rcases List.mem_append.mp h with h | h
        · exact (show ∀ c ∈ urlStem, c ≠ '[' by decide) c h
        · exact digit_ne (List.all_eq_true.mp (natDigits_all n) c h) (by decide)
  have hB1 := break_lbracket ((pad2 cnt).data ++ (" dupes] ".data ++ (urlStem ++ natDigits n)))
  have hB2 : breakOnFirst ("[".data)
      ((pad2 cnt).data ++ (" dupes] ".data ++ (urlStem ++ natDigits n))) = none := by
    show breakOnFirst ('[' :: []) _ = none
    exact breakOnFirst_none_of_head_ne hrest1
  have hS1 : pySplitGet1 ("[".data)
      ("-   [".data ++ ((pad2 cnt).data ++ (" dupes] ".data ++ (urlStem ++ natDigits n))))
      = some ((pad2 cnt).data ++ (" dupes] ".data ++ (urlStem ++ natDigits n))) := by
    simp only [pySplitGet1, hB1, hB2]
  have htail : (" dupes] ".data ++ (urlStem ++ natDigits n)).head? = none ∨
      (" dupes] ".data ++ (urlStem ++ natDigits n)).head? = some ' ' := Or.inr rfl
  have htok1 : pyFirstToken
      ((pad2 cnt).data ++ (" dupes] ".data ++ (urlStem ++ natDigits n)))
      = some (natDigits cnt) := by
    by_cases h10 : cnt < 10
    · have hpd : (pad2 cnt).data = ' ' :: natDigits cnt := by
        unfold pad2
        rw [if_pos h10, String.data_append]
        rfl
      rw [hpd, List.cons_append, pyFirstToken_cons_space]
      exact pyFirstToken_digits (natDigits_all cnt) (natDigits_ne_nil cnt) htail
    · have hpd : (pad2 cnt).data = natDigits cnt := by
        unfold pad2
        rw [if_neg h10]
        rfl
      rw [hpd]
      exact pyFirstToken_digits (natDigits_all cnt) (natDigits_ne_nil cnt) htail
  have hB3 := break_iss ((pad2 cnt).data) (natDigits n) pad2_chars (natDigits_all n)
  have hB4 : breakOnFirst ("/issues/".data) (natDigits n) = none := by
    show breakOnFirst ('/' :: "issues/".data) (natDigits n) = none
    exact breakOnFirst_none_of_head_ne fun c hc =>
      digit_ne (List.all_eq_true.mp (natDigits_all n) c hc) (by decide)
  have hS2 : pySplitGet1 ("/issues/".data)
      ("-   [".data ++ ((pad2 cnt).data ++ (" dupes] ".data ++ (urlStem ++ natDigits n))))
      = some (natDigits n) := by
    have hB3x : breakOnFirst ("/issues/".data)
        ("-   [".data ++ ((pad2 cnt).data ++ (" dupes] ".data ++ (urlStem ++ natDigits n))))
        = some ("-   [".data ++ ((pad2 cnt).data ++ segMid), natDigits n) := hB3
    simp only [pySplitGet1, hB3x, hB4]
  have htok2 : pyFirstToken (natDigits n) = some (natDigits n) := by
    have h := @pyFirstToken_digits (natDigits n) [] (natDigits_all n) (natDigits_ne_nil n)
      (Or.inl rfl)
    simpa using h
  have hrs : pyRstripParen (natDigits n) = natDigits n :=
    pyRstripParen_digits (natDigits_all n)
  unfold parseBulletCounts
  simp only [hS1, hS2, htok1, htok2, hrs, pyInt_natDigits, Option.bind_eq_bind,
    Option.some_bind]
  rfl

/-! ## Grouping facts (`by_area`, `area_totals`) -/

theorem addToBucket_keys (bs : List (String × List RecInfo)) (a' : String) (r : RecInfo) :
    (addToBucket bs a' r).map (fun b => b.1)
      = if bs.any (fun b => b.1 == a') then bs.map (fun b => b.1)
        else bs.map (fun b => b.1) ++ [a'] := by
  unfold addToBucket
  split
  · rw [List.map_map]
    apply List.map_congr_left
    intro b _
    by_cases hb : b.1 == a' <;> simp [hb] <;> split <;> rfl
  · rw [List.map_append]
    rfl

theorem addTotal_keys (ts : List (String × Nat)) (a' : String) (k : Nat) :
    (addTotal ts a' k).map (fun t => t.1)
      = if ts.any (fun t => t.1 == a') then ts.map (fun t => t.1)
        else ts.map (fun t => t.1) ++ [a'] := by
  unfold addTotal
  split
  · rw [List.map_map]
    apply List.map_congr_left
    intro t _
    by_cases ht : t.1 == a' <;> simp [ht] <;> split <;> rfl
  · rw [List.map_append]
    rfl

theorem any_key_iff {α : Type} (bs : List (String × α)) (a : String) :
    bs.any (fun b => b.1 == a) = true ↔ a ∈ bs.map (fun b => b.1) := by
  rw [List.any_eq_true]
  constructor
  · rintro ⟨b, hb, hba⟩
    rw [List.mem_map]
    exact ⟨b, hb, beq_iff_eq.mp hba⟩
  · intro h
    rw [List.mem_map] at h
    obtain ⟨b, hb, hba⟩ := h
    exact ⟨b, hb, beq_iff_eq.mpr hba⟩

theorem addToBucket_keys_mem (bs : List (String × List RecInfo)) (a' a : String)
    (r : RecInfo) :
    a ∈ (addToBucket bs a' r).map (fun b => b.1)
      ↔ a ∈ bs.map (fun b => b.1) ∨ a = a' := by
  rw [addToBucket_keys]
  split
  · next h =>
    constructor
    · exact Or.inl
    · rintro (hm | rfl)
      · exact hm
      · exact (any_key_iff bs a).mp h
  · next h => simp [or_comm]

theorem addToBucket_keys_nodup (bs : List (String × List RecInfo)) (a' : String)
    (r : RecInfo) (h : (bs.map fun b => b.1).Nodup) :
    ((addToBucket bs a' r).map fun b => b.1).Nodup := by
  rw [addToBucket_keys]
  split
  · exact h
  · next hany =>
    rw [List.nodup_append]
    refine ⟨h, by simp, ?_⟩
    intro x hx
    simp only [List.mem_singleton]
    rintro rfl
    exact absurd ((any_key_iff bs x).mpr hx) (by simp [hany])

theorem addTotal_keys_mem (ts : List (String × Nat)) (a' a : String) (k : Nat) :
    a ∈ (addTotal ts a' k).map (fun t => t.1)
      ↔ a ∈ ts.map (fun t => t.1) ∨ a = a' := by
  rw [addTotal_keys]
  split
  · next h =>
    constructor
    · exact Or.inl
    · rintro (hm | rfl)
      · exact hm
      · exact (any_key_iff ts a).mp h
  · next h => simp [or_comm]

theorem addTotal_keys_nodup (ts : List (String × Nat)) (a' : String) (k : Nat)
    (h : (ts.map fun t => t.1).Nodup) :
    ((addTotal ts a' k).map fun t => t.1).Nodup := by
  rw [addTotal_keys]
  split
  · exact h
  · next hany =>
    rw [List.nodup_append]
    refine ⟨h, by simp, ?_⟩
    intro x hx
    simp only [List.mem_singleton]
    rintro rfl
    exact absurd ((any_key_iff ts x).mpr hx) (by simp [hany])

theorem lookupBucket_cons (b : String × List RecInfo) (bs : List (String × List RecInfo))
    (a : String) :
    lookupBucket (b :: bs) a = if b.1 == a then b.2 else lookupBucket bs a := by
  by_cases h : (b.1 == a) = true
  · rw [if_pos h]
    unfold lookupBucket
    rw [@List.find?_cons_of_pos _ (fun x => x.1 == a) b bs h]
  · rw [if_neg h]
    unfold lookupBucket
    rw [@List.find?_cons_of_neg _ (fun x => x.1 == a) b bs (by simpa using h)]

theorem addToBucket_lookup (a' a : String) (r : RecInfo) :
    ∀ bs : List (String × List RecInfo), ((bs.map fun b => b.1).Nodup) →
      lookupBucket (addToBucket bs a' r) a
        = if a' = a then lookupBucket bs a ++ [r] else lookupBucket bs a := by
  intro bs
  induction bs with
  | nil =>
    intro _
    by_cases h : a' = a
    · subst h
      simp [addToBucket, lookupBucket, List.find?_cons]
    · have hb : (a' == a) = false := beq_eq_false_iff_ne.mpr h
      simp [addToBucket, lookupBucket, List.find?_cons, hb, h]
  | cons b bs' ih =>
    intro hk
    have hk2 : (bs'.map fun x => x.1).Nodup := by
      rw [List.map_cons, List.nodup_cons] at hk
      exact hk.2
    have hknot : b.1 ∉ bs'.map fun x => x.1 := by
      rw [List.map_cons, List.nodup_cons] at hk
      exact hk.1
    unfold addToBucket
    by_cases hb : (b.1 == a') = true
    · have hany : ((b :: bs').any fun x => x.1 == a') = true := by
        simp [List.any_cons, hb]
      rw [if_pos hany, List.map_cons]
      have hba' : b.1 = a' := beq_iff_eq.mp hb
      have hfb : (if (b.1 == a') = true then (b.1, b.2 ++ [r]) else b) = (b.1, b.2 ++ [r]) :=
        if_pos hb
      have hmapid : (bs'.map fun x => if (x.1 == a') = true then (x.1, x.2 ++ [r]) else x)
          = bs' := by
        have hpt : ∀ x ∈ bs',
            (if (x.1 == a') = true then (x.1, x.2 ++ [r]) else x) = x := by
          intro x hx
          rw [if_neg]
          intro hxa
          apply hknot
          rw [List.mem_map]
          exact ⟨x, hx, (beq_iff_eq.mp hxa).trans hba'.symm⟩
        calc (bs'.map fun x => if (x.1 == a') = true then (x.1, x.2 ++ [r]) else x)
            = bs'.map id := List.map_congr_left hpt
          _ = bs' := List.map_id bs'
      rw [hfb, hmapid, lookupBucket_cons, lookupBucket_cons]
      by_cases hba : (b.1 == a) = true
      · have ha'a : a' = a := hba'.symm.trans (beq_iff_eq.mp hba)
        have hproj : ((b.1, b.2 ++ [r]).1 == a) = true := hba
        simp [hproj, hba, ha'a]
      · have ha'a : ¬ a' = a := by
          intro he
          exact absurd (beq_iff_eq.mpr (hba'.trans he)) (by simpa using hba)
        have hproj : ((b.1, b.2 ++ [r]).1 == a) = false := by simpa using hba
        simp [hproj, hba, ha'a]
    · have hany : ((b :: bs').any fun x => x.1 == a') = (bs'.any fun x => x.1 == a') := by
        simp [List.any_cons, hb]
      have hfb : (if (b.1 == a') = true then (b.1, b.2 ++ [r]) else b) = b :=
        if_neg (by simpa using hb)
      have ha'b : ∀ he : a' = a, (b.1 == a) = true → False := by
        intro he hba
        exact absurd (beq_iff_eq.mpr ((beq_iff_eq.mp hba).trans he.symm)) (by simpa using hb)
      by_cases h2 : (bs'.any fun x => x.1 == a') = true
      · rw [if_pos (by rw [hany]; exact h2), List.map_cons, hfb]
        have hrec : (bs'.map fun x => if (x.1 == a') = true then (x.1, x.2 ++ [r]) else x)
            = addToBucket bs' a' r := by
          unfold addToBucket
          rw [if_pos h2]
        rw [hrec, lookupBucket_cons, lookupBucket_cons, ih hk2]
        by_cases hba : (b.1 == a) = true
        · have ha'a : ¬ a' = a := fun he => ha'b he hba
          simp [hba, ha'a]
        · by_cases ha'a : a' = a <;> simp [hba, ha'a]
      · rw [if_neg (by rw [hany]; simpa using h2), List.cons_append, lookupBucket_cons,
          lookupBucket_cons]
        have hrec : bs' ++ [(a', [r])] = addToBucket bs' a' r := by
          unfold addToBucket
          rw [if_neg (by simpa using h2)]
        rw [hrec, ih hk2]
        by_cases hba : (b.1 == a) = true
        · have ha'a : ¬ a' = a := fun he => ha'b he hba
          simp [hba, ha'a]
        · by_cases ha'a : a' = a <;> simp [hba, ha'a]

theorem bucketFold_keys_nodup (r : RecInfo) :
    ∀ (al : List String) (bs : List (String × List RecInfo)),
      ((bs.map fun b => b.1).Nodup) →
      (((al.foldl (fun bs a0 => addToBucket bs a0 r) bs).map fun b => b.1)).Nodup := by
  intro al
  induction al with
  | nil => intro bs h; exact h
  | cons a0 rest ih =>
    intro bs h
    exact ih _ (addToBucket_keys_nodup bs a0 r h)

theorem bucketFold_keys_mem (r : RecInfo) :
    ∀ (al : List String) (bs : List (String × List RecInfo)) (x : String),
      (x ∈ (al.foldl (fun bs a0 => addToBucket bs a0 r) bs).map fun b => b.1)
        ↔ (x ∈ bs.map fun b => b.1) ∨ x ∈ al := by
  intro al
  induction al with
  | nil => intro bs x; simp
  | cons a0 rest ih =>
    intro bs x
    rw [List.foldl_cons, ih, addToBucket_keys_mem]
    simp only [List.mem_cons]
    tauto

theorem totalsFold_keys_nodup (k : Nat) :
    ∀ (al : List String) (ts : List (String × Nat)),
      ((ts.map fun t => t.1).Nodup) →
      (((al.foldl (fun ts a0 => addTotal ts a0 k) ts).map fun t => t.1)).Nodup := by
  intro al
  induction al with
  | nil => intro ts h; exact h
  | cons a0 rest ih =>
    intro ts h
    exact ih _ (addTotal_keys_nodup ts a0 k h)

theorem totalsFold_keys_mem (k : Nat) :
    ∀ (al : List String) (ts : List (String × Nat)) (x : String),
      (x ∈ (al.foldl (fun ts a0 => addTotal ts a0 k) ts).map fun t => t.1)
        ↔ (x ∈ ts.map fun t => t.1) ∨ x ∈ al := by
  intro al
  induction al with
  | nil => intro ts x; simp
  | cons a0 rest ih =>
    intro ts x
    rw [List.foldl_cons, ih, addTotal_keys_mem]
    simp only [List.mem_cons]
    tauto

theorem areasFold_lookup (r : RecInfo) (a : String) :
    ∀ (al : List String) (bs : List (String × List RecInfo)),
      al.Nodup → ((bs.map fun b => b.1).Nodup) →
      lookupBucket (al.foldl (fun bs a0 => addToBucket bs a0 r) bs) a
        = lookupBucket bs a ++ (if a ∈ al then [r] else []) := by
  intro al
  induction al with
  | nil => intro bs _ _; simp
  | cons a0 rest ih =>
    intro bs hnd hk
    rw [List.foldl_cons]
    rw [ih _ (List.nodup_cons.mp hnd).2 (addToBucket_keys_nodup bs a0 r hk)]
    rw [addToBucket_lookup a0 a r bs hk]
    by_cases ha : a0 = a
    · subst ha
      have hnr : a0 ∉ rest := (List.nodup_cons.mp hnd).1
      simp [hnr]
    · have ha2 : ¬ a = a0 := fun h => ha h.symm
      rw [if_neg ha]
      simp [List.mem_cons, ha2]

theorem by_area_general (a : String) :
    ∀ (rs : List RecInfo) (bs : List (String × List RecInfo)),
      (∀ r ∈ rs, r.areas.Nodup) → ((bs.map fun b => b.1).Nodup) →
      lookupBucket (rs.foldl (fun bs r => r.areas.foldl (fun bs a0 => addToBucket bs a0 r) bs) bs) a
        = lookupBucket bs a ++ rs.filter (fun r => decide (a ∈ r.areas)) := by
  intro rs
  induction rs with
  | nil => intro bs _ _; simp
  | cons r rest ih =>
    intro bs hna hk
    rw [List.foldl_cons]
    rw [ih _ (fun x hx => hna x (List.mem_cons_of_mem _ hx))
      (bucketFold_keys_nodup r r.areas bs hk)]
    rw [areasFold_lookup r a r.areas bs (hna r (List.mem_cons_self ..)) hk]
    rw [List.filter_cons]
    by_cases hm : a ∈ r.areas
    · rw [if_pos hm, if_pos (by simpa using hm), List.append_assoc]
      rfl
    · rw [if_neg hm, if_neg (by simpa using hm)]
      simp

theorem by_area_lookup (rs : List RecInfo) (a : String)
    (hna : ∀ r ∈ rs, r.areas.Nodup) :
    lookupBucket (by_area rs) a = rs.filter (fun r => decide (a ∈ r.areas)) := by
  unfold by_area
  rw [by_area_general a rs [] hna (by simp)]
  rfl

theorem area_totals_keys_nodup (rs : List RecInfo) :
    ((area_totals rs).map fun t => t.1).Nodup := by
  unfold area_totals
  suffices h : ∀ (rs : List RecInfo) (ts : List (String × Nat)),
      ((ts.map fun t => t.1).Nodup) →
      (((rs.foldl (fun ts r => r.areas.foldl
          (fun ts a => addTotal ts a r.duplicate_count) ts) ts).map fun t => t.1)).Nodup by
    exact h rs [] (by simp)
  intro rs2
  induction rs2 with
  | nil => intro ts h; exact h
  | cons r rest ih =>
    intro ts h
    exact ih _ (totalsFold_keys_nodup r.duplicate_count r.areas ts h)

theorem area_totals_keys_mem (rs : List RecInfo) (x : String) :
    (x ∈ (area_totals rs).map fun t => t.1) ↔ ∃ r ∈ rs, x ∈ r.areas := by
  unfold area_totals
  suffices h : ∀ (rs : List RecInfo) (ts : List (String × Nat)),
      ((x ∈ (rs.foldl (fun ts r => r.areas.foldl
          (fun ts a => addTotal ts a r.duplicate_count) ts) ts).map fun t => t.1)
        ↔ (x ∈ ts.map fun t => t.1) ∨ ∃ r ∈ rs, x ∈ r.areas) by
    rw [h rs []]
    simp
  intro rs2
  induction rs2 with
  | nil => intro ts; simp
  | cons r rest ih =>
    intro ts
    rw [List.foldl_cons, ih, totalsFold_keys_mem]
    constructor
    · rintro (⟨hm | hal⟩ | ⟨r2, hr2, hx⟩)
      · exact Or.inl hm
      · exact Or.inr ⟨r, List.mem_cons_self .., hal⟩
      · exact Or.inr ⟨r2, List.mem_cons_of_mem _ hr2, hx⟩
    · rintro (hm | ⟨r2, hr2, hx⟩)
      · exact Or.inl (Or.inl hm)
      · rcases List.mem_cons.mp hr2 with rfl | hr2b
        · exact Or.inl (Or.inr hx)
        · exact Or.inr ⟨r2, hr2b, hx⟩

/-! ## Catalog lines: section decomposition and line-splitting round trip -/

/-- An area label as produced by `extract_duplicate_info` (an `area:`-label
tail, or the reserved `"(unlabeled)"` marker): non-empty, free of newlines
and fixed by `str.strip()`. -/
def validArea (a : String) : Prop :=
  a.data ≠ [] ∧ '\n' ∉ a.data ∧ pyStripChars a.data = a.data

/-- The lines one area section contributes to the catalog: a blank line,
the `## <area>` header, a blank line, the area's bullets (most duplicated
first). -/
def sectionLines (rs : List RecInfo) (t : String × Nat) : List String :=
  ["", "## " ++ t.1, ""] ++
    (List.insertionSort (fun a b => b.duplicate_count ≤ a.duplicate_count)
      (lookupBucket (by_area rs) t.1)).map bulletLine

theorem buildFold_eq (rs : List RecInfo) :
    ∀ (ts : List (String × Nat)) (init : List String),
      ts.foldl (fun lines t => lines ++ ["", "## " ++ t.1, ""] ++
          (List.insertionSort (fun a b => b.duplicate_count ≤ a.duplicate_count)
            (lookupBucket (by_area rs) t.1)).map bulletLine) init
        = init ++ ts.flatMap (sectionLines rs) := by
  intro ts
  induction ts with
  | nil => intro init; simp
  | cons t rest ih =>
    intro init
    rw [List.foldl_cons, ih, List.flatMap_cons]
    simp [sectionLines, List.append_assoc]

theorem build_lines_eq (rs : List RecInfo) :
    build_lines rs
      = introLine :: (most_common (area_totals rs)).flatMap (sectionLines rs) := by
  unfold build_lines
  rw [buildFold_eq]
  rfl

theorem total_key_mem (rs : List RecInfo) (t : String × Nat)
    (ht : t ∈ most_common (area_totals rs)) : ∃ r ∈ rs, t.1 ∈ r.areas := by
  have h1 : t ∈ area_totals rs := (List.perm_insertionSort _ _).mem_iff.mp ht
  exact (area_totals_keys_mem rs t.1).mp (List.mem_map.mpr ⟨t, h1, rfl⟩)

theorem build_lines_mem (rs : List RecInfo) {s : String} (hs : s ∈ build_lines rs) :
    s = introLine ∨ s = "" ∨
      (∃ t ∈ most_common (area_totals rs), s = "## " ++ t.1) ∨
      (∃ t ∈ most_common (area_totals rs), ∃ r ∈ lookupBucket (by_area rs) t.1,
        s = bulletLine r) := by
  rw [build_lines_eq] at hs
  rcases List.mem_cons.mp hs with rfl | hs
  · exact Or.inl rfl
  obtain ⟨t, ht, hsec⟩ := List.mem_flatMap.mp hs
  rcases List.mem_append.mp hsec with hl | hr
  · rcases List.mem_cons.mp hl with rfl | hl
    · exact Or.inr (Or.inl rfl)
    rcases List.mem_cons.mp hl with rfl | hl
    · exact Or.inr (Or.inr (Or.inl ⟨t, ht, rfl⟩))
    rcases List.mem_cons.mp hl with rfl | hl
    · exact Or.inr (Or.inl rfl)
    · simp at hl
  · obtain ⟨r, hrmem, rfl⟩ := List.mem_map.mp hr
    have hrb : r ∈ lookupBucket (by_area rs) t.1 :=
      (List.perm_insertionSort _ _).mem_iff.mp hrmem
    exact Or.inr (Or.inr (Or.inr ⟨t, ht, r, hrb, rfl⟩))

theorem no_nl_of_digits {l : List Char} (h : l.all isDigitChar = true) : '\n' ∉ l :=
  fun hm => absurd (List.all_eq_true.mp h _ hm) (by decide)

theorem introLine_no_nl : '\n' ∉ introLine.data := by decide

theorem header_no_nl {a : String} (ha : '\n' ∉ a.data) : '\n' ∉ ("## " ++ a).data := by
  rw [String.data_append]
  intro hm
  rcases List.mem_append.mp hm with h | h
  · exact absurd h (by decide)
  · exact ha h

theorem bulletLine_no_nl (r : RecInfo) (hurl : r.url = issuesUrl r.number) :
    '\n' ∉ (bulletLine r).data := by
  intro hm
  unfold bulletLine at hm
  rw [hurl, bulletData] at hm
  rcases List.mem_append.mp hm with h | h
  · exact absurd h (by decide)
  rcases List.mem_append.mp h with h | h
  · rcases pad2_chars _ h with h2 | h2
    · exact absurd h2 (by decide)
    · exact absurd h2 (by decide)
  rcases List.mem_append.mp h with h | h
  · exact absurd h (by decide)
  rcases List.mem_append.mp h with h | h
  · exact absurd h (by decide)
  · exact no_nl_of_digits (natDigits_all r.number) h

theorem build_lines_no_nl (rs : List RecInfo)
    (hurl : ∀ r ∈ rs, r.url = issuesUrl r.number)
    (hnodA : ∀ r ∈ rs, r.areas.Nodup)
    (hva : ∀ r ∈ rs, ∀ a ∈ r.areas, '\n' ∉ a.data) :
    ∀ s ∈ build_lines rs, '\n' ∉ s.data := by
  intro s hs
  rcases build_lines_mem rs hs with rfl | rfl | ⟨t, ht, rfl⟩ | ⟨t, ht, r, hrb, rfl⟩
  · exact introLine_no_nl
  · simp
  · obtain ⟨r, hrs, hmem⟩ := total_key_mem rs t ht
    exact header_no_nl (hva r hrs t.1 hmem)
  · have hrrs : r ∈ rs := by
      rw [by_area_lookup rs t.1 hnodA] at hrb
      exact (List.mem_filter.mp hrb).1
    exact bulletLine_no_nl r (hurl r hrrs)

/-- Splitting the generated body on `"\n"` recovers exactly the generated
lines: the catalog builder emits no line containing a newline. -/
theorem build_split_lines (rs : List RecInfo)
    (hurl : ∀ r ∈ rs, r.url = issuesUrl r.number)
    (hnodA : ∀ r ∈ rs, r.areas.Nodup)
    (hva : ∀ r ∈ rs, ∀ a ∈ r.areas, '\n' ∉ a.data) :
    pySplitLines (build_markdown_body rs).data = (build_lines rs).map (fun s => s.data) := by
  show List.splitOn '\n'
      (List.intercalate ("\n".data) ((build_lines rs).map fun s => s.data))
    = (build_lines rs).map (fun s => s.data)
  rw [show ("\n".data : List Char) = ['\n'] from rfl]
  refine List.splitOn_intercalate _ '\n' ?_ ?_
  · intro l hl
    obtain ⟨s, hs, rfl⟩ := List.mem_map.mp hl
    exact build_lines_no_nl rs hurl hnodA hva s hs
  · intro hnil
    have : build_lines rs = [] := by
      cases hb : build_lines rs
      · rfl
      · rw [hb] at hnil; simp at hnil
    rw [build_lines_eq] at this
    simp at this

/-! ## Parsing the generated catalog: line-by-line reduction to bullet events -/

/-- One area's bucket, sorted most-duplicated first (as listed in the
catalog). -/
def sortedBucket (rs : List RecInfo) (a : String) : List RecInfo :=
  List.insertionSort (fun x y => y.duplicate_count ≤ x.duplicate_count)
    (lookupBucket (by_area rs) a)

/-- The (section area, record) bullet events of the generated catalog, in
document order. -/
def catalogEvents (rs : List RecInfo) : List (String × RecInfo) :=
  (most_common (area_totals rs)).flatMap fun t =>
    (sortedBucket rs t.1).map fun r => (t.1, r)

/-- Processing a list of bullet events with `recordBullet`. -/
def recordFold (evs : List (String × RecInfo)) (ms : List Magnet) : List Magnet :=
  evs.foldl (fun ms e => recordBullet e.1.data e.2.duplicate_count e.2.number ms) ms

theorem recordFold_append (evs1 evs2 : List (String × RecInfo)) (ms : List Magnet) :
    recordFold (evs1 ++ evs2) ms = recordFold evs2 (recordFold evs1 ms) := by
  unfold recordFold
  rw [List.foldl_append]

theorem recordFold_map_area (a : String) (bs : List RecInfo) (ms : List Magnet) :
    recordFold (bs.map fun r => (a, r)) ms
      = bs.foldl (fun ms r => recordBullet a.data r.duplicate_count r.number ms) ms := by
  unfold recordFold
  rw [List.foldl_map]

theorem parseLinesGo_eq_foldl :
    ∀ (lines : List (List Char)) (cur : Option (List Char)) (ms : List Magnet),
      parseLinesGo cur ms lines = (lines.foldl parseStep (cur, ms)).2 := by
  intro lines
  induction lines with
  | nil => intro cur ms; rfl
  | cons line rest ih =>
    intro cur ms
    rw [List.foldl_cons]
    show parseLinesGo (parseStep (cur, ms) line).1 (parseStep (cur, ms) line).2 rest = _
    rw [ih]

theorem parseStep_empty_line (st : Option (List Char) × List Magnet) :
    parseStep st [] = st := by
  have h1 : (("## ".data).isPrefixOf ([] : List Char)) = false := rfl
  have h2 : (("-".data).isPrefixOf ([] : List Char)) = false := rfl
  unfold parseStep
  rw [h1]
  cases hst : st.1 with
  | none => simp
  | some area => by_cases ha : area.isEmpty <;> simp [ha, h2]

theorem parseStep_none (ms : List Magnet) (line : List Char)
    (h : (("## ".data).isPrefixOf line) = false) :
    parseStep (none, ms) line = (none, ms) := by
  unfold parseStep
  rw [h]
  simp

theorem parseStep_header (st : Option (List Char) × List Magnet) (a : String)
    (hstrip : pyStripChars a.data = a.data) :
    parseStep st ("## " ++ a).data = (some a.data, st.2) := by
  have hpre : ("## ".data).isPrefixOf (("## " ++ a).data) = true := by
    rw [String.data_append]
    exact isPrefixOf_self_append _ _
  have hdrop : (("## " ++ a).data).drop 3 = a.data := by
    rw [String.data_append]
    rfl
  unfold parseStep
  rw [hpre]
  simp [hdrop, hstrip]

theorem parseStep_bullet (area : List Char) (ms : List Magnet) (r : RecInfo)
    (harea : area ≠ []) (hurl : r.url = issuesUrl r.number) :
    parseStep (some area, ms) (bulletLine r).data
      = (some area, recordBullet area r.duplicate_count r.number ms) := by
  have hdata : (bulletLine r).data
      = "-   [".data ++ ((pad2 r.duplicate_count).data
          ++ (" dupes] ".data ++ (urlStem ++ natDigits r.number))) := by
    unfold bulletLine
    rw [hurl, bulletData]
  have hpre : ("## ".data).isPrefixOf ((bulletLine r).data) = false := by
    rw [hdata]
    rfl
  have hdash : ("-".data).isPrefixOf ((bulletLine r).data) = true := by
    rw [hdata]
    rfl
  have hcont : pyContains ("/issues/".data) ((bulletLine r).data) = true := by
    rw [hdata]
    unfold pyContains
    rw [show ("/issues/".data : List Char) = issSep from rfl]
    rw [break_iss _ _ pad2_chars (natDigits_all r.number)]
    rfl
  have hcnt : parseBulletCounts ((bulletLine r).data)
      = some (r.duplicate_count, r.number) := by
    unfold bulletLine
    rw [hurl]
    exact parseBulletCounts_roundtrip r.duplicate_count r.number
  have hae : area.isEmpty = false := by
    cases area
    · exact absurd rfl harea
    · rfl
  unfold parseStep
  rw [hpre]
  simp [hae, hdash, hcont, hcnt]

theorem bullets_fold (area : List Char) (harea : area ≠ []) :
    ∀ (bs : List RecInfo) (ms : List Magnet),
      (∀ r ∈ bs, r.url = issuesUrl r.number) →
      (bs.map fun r => (bulletLine r).data).foldl parseStep (some area, ms)
        = (some area,
            bs.foldl (fun ms r => recordBullet area r.duplicate_count r.number ms) ms) := by
  intro bs
  induction bs with
  | nil => intro ms _; rfl
  | cons r rest ih =>
    intro ms hurl
    rw [List.map_cons, List.foldl_cons,
      parseStep_bullet area ms r harea (hurl r (List.mem_cons_self ..)), List.foldl_cons]
    exact ih _ (fun x hx => hurl x (List.mem_cons_of_mem _ hx))

theorem section_fold (rs : List RecInfo) (t : String × Nat)
    (st : Option (List Char) × List Magnet)
    (hstrip : pyStripChars t.1.data = t.1.data) (hne : t.1.data ≠ [])
    (hurl : ∀ r ∈ sortedBucket rs t.1, r.url = issuesUrl r.number) :
    ((sectionLines rs t).map (fun s => s.data)).foldl parseStep st
      = (some t.1.data,
          recordFold ((sortedBucket rs t.1).map fun r => (t.1, r)) st.2) := by
  have hsec : (sectionLines rs t).map (fun s => s.data)
      = [] :: ("## " ++ t.1).data :: [] ::
          ((sortedBucket rs t.1).map fun r => (bulletLine r).data) := by
    unfold sectionLines sortedBucket
    simp [List.map_map, Function.comp]
  rw [hsec]
  rw [List.foldl_cons, parseStep_empty_line]
  rw [List.foldl_cons, parseStep_header st t.1 hstrip]
  rw [List.foldl_cons, parseStep_empty_line]
  rw [bullets_fold t.1.data hne (sortedBucket rs t.1) st.2 hurl]
  rw [recordFold_map_area]

theorem sections_fold (rs : List RecInfo) :
    ∀ (ts : List (String × Nat)) (st : Option (List Char) × List Magnet),
      (∀ t ∈ ts, pyStripChars t.1.data = t.1.data ∧ t.1.data ≠ []) →
      (∀ t ∈ ts, ∀ r ∈ sortedBucket rs t.1, r.url = issuesUrl r.number) →
      (((ts.flatMap (sectionLines rs)).map (fun s => s.data)).foldl parseStep st).2
        = recordFold (ts.flatMap fun t => (sortedBucket rs t.1).map fun r => (t.1, r))
            st.2 := by
  intro ts
  induction ts with
  | nil => intro st _ _; rfl
  | cons t rest ih =>
    intro st hstr hurl
    rw [List.flatMap_cons, List.map_append, List.foldl_append,
      section_fold rs t st (hstr t (List.mem_cons_self ..)).1
        (hstr t (List.mem_cons_self ..)).2 (hurl t (List.mem_cons_self ..))]
    rw [ih _ (fun x hx => hstr x (List.mem_cons_of_mem _ hx))
      (fun x hx => hurl x (List.mem_cons_of_mem _ hx))]
    rw [List.flatMap_cons, recordFold_append]

/-- Parsing the generated catalog is exactly the `recordBullet` fold over the
catalog's bullet events. -/
theorem parse_catalog_eq_recordFold (rs : List RecInfo)
    (hurl : ∀ r ∈ rs, r.url = issuesUrl r.number)
    (hnodA : ∀ r ∈ rs, r.areas.Nodup)
    (hVA : ∀ r ∈ rs, ∀ a ∈ r.areas, validArea a) :
    parseLinesGo none [] (pySplitLines (build_markdown_body rs).data)
      = recordFold (catalogEvents rs) [] := by
  have hstr : ∀ t ∈ most_common (area_totals rs),
      pyStripChars t.1.data = t.1.data ∧ t.1.data ≠ [] := by
    intro t ht
    obtain ⟨r, hrs, hmem⟩ := total_key_mem rs t ht
    exact ⟨(hVA r hrs t.1 hmem).2.2, (hVA r hrs t.1 hmem).1⟩
  have hurl2 : ∀ t ∈ most_common (area_totals rs),
      ∀ r ∈ sortedBucket rs t.1, r.url = issuesUrl r.number := by
    intro t _ r hr
    have hb : r ∈ lookupBucket (by_area rs) t.1 :=
      (List.perm_insertionSort _ _).mem_iff.mp hr
    rw [by_area_lookup rs t.1 hnodA] at hb
    exact hurl r (List.mem_filter.mp hb).1
  rw [build_split_lines rs hurl hnodA (fun r hr a ha => (hVA r hr a ha).2.1)]
  rw [build_lines_eq, parseLinesGo_eq_foldl]
  rw [List.map_cons, List.foldl_cons]
  rw [parseStep_none [] introLine.data (by decide)]
  rw [sections_fold rs _ (none, []) hstr hurl2]
  rfl

/-! ## `recordBullet` fold: per-number characterisation -/

theorem update_number (n : Nat) (A : List String) (m : Magnet) :
    (if m.number == n then { m with areas := m.areas ++ A } else m).number = m.number := by
  by_cases h : (m.number == n) = true <;> simp [h]

theorem find?_map_update (n n' : Nat) (A : List String) :
    ∀ ms : List Magnet,
      (ms.map fun m => if m.number == n then { m with areas := m.areas ++ A } else m).find?
          (fun m => m.number == n')
        = Option.map (fun m => if m.number == n then { m with areas := m.areas ++ A } else m)
            (ms.find? fun m => m.number == n')
  | [] => rfl
  | m :: ms => by
    rw [List.map_cons]
    by_cases hp : (m.number == n') = true
    · rw [@List.find?_cons_of_pos _ (fun x => x.number == n')
          (if m.number == n then { m with areas := m.areas ++ A } else m) (List.map _ ms)
          (by show ((if m.number == n then { m with areas := m.areas ++ A } else m).number
                == n') = true
              rw [update_number]; exact hp)]
      rw [@List.find?_cons_of_pos _ (fun x => x.number == n') m ms hp]
      rfl
    · rw [@List.find?_cons_of_neg _ (fun x => x.number == n')
          (if m.number == n then { m with areas := m.areas ++ A } else m) (List.map _ ms)
          (by show ¬ ((if m.number == n then { m with areas := m.areas ++ A } else m).number
                == n') = true
              rw [update_number]; exact hp)]
      rw [@List.find?_cons_of_neg _ (fun x => x.number == n') m ms hp]
      exact find?_map_update n n' A ms

theorem any_eq_find?_isSome (ms : List Magnet) (n : Nat) :
    (ms.any fun m => m.number == n) = (ms.find? fun m => m.number == n).isSome := by
  induction ms with
  | nil => rfl
  | cons m rest ih =>
    by_cases hp : (m.number == n) = true
    · rw [@List.find?_cons_of_pos _ (fun x => x.number == n) m rest hp]
      simp [hp]
    · rw [@List.find?_cons_of_neg _ (fun x => x.number == n) m rest hp]
      simp only [List.any_cons, ih]
      simp [Bool.eq_false_iff.mpr hp]

theorem recordBullet_find (a : List Char) (dc n n' : Nat) (ms : List Magnet) :
    (recordBullet a dc n ms).find? (fun m => m.number == n')
      = if n' = n then
          match ms.find? (fun m => m.number == n) with
          | none => some ⟨n, if a == unlabeledMark then [] else [⟨a⟩], dc⟩
          | some m => some (if a == unlabeledMark then m
              else { m with areas := m.areas ++ [⟨a⟩] })
        else ms.find? (fun m => m.number == n') := by
  have hfind := any_eq_find?_isSome ms n
  simp only [recordBullet]
  by_cases hany : (ms.any fun m => m.number == n) = true
  · rw [if_pos hany]
    have hsome : (ms.find? fun m => m.number == n).isSome = true := by
      rw [← hfind]; exact hany
    obtain ⟨m0, hm0⟩ := Option.isSome_iff_exists.mp hsome
    by_cases hu : (a == unlabeledMark) = true
    · rw [if_pos hu]
      by_cases hn : n' = n
      · rw [if_pos hn, hn, hm0]
        show some m0
          = some (if (a == unlabeledMark) = true then m0
              else { m0 with areas := m0.areas ++ [⟨a⟩] })
        rw [if_pos hu]
      · rw [if_neg hn]
    · rw [if_neg hu]
      by_cases hn : n' = n
      · rw [if_pos hn, hn, hm0, find?_map_update n n [⟨a⟩] ms, hm0]
        have hm0n : (m0.number == n) = true := by
          have h := List.find?_some hm0
          simpa using h
        show some (if (m0.number == n) = true then { m0 with areas := m0.areas ++ [⟨a⟩] }
            else m0)
          = some (if (a == unlabeledMark) = true then m0
              else { m0 with areas := m0.areas ++ [⟨a⟩] })
        rw [if_pos hm0n, if_neg hu]
      · rw [if_neg hn, find?_map_update n n' [⟨a⟩] ms]
        cases hm' : ms.find? (fun m => m.number == n') with
        | none => rfl
        | some m1 =>
          have hm1 : (m1.number == n') = true := by
            have h := List.find?_some hm'
            simpa using h
          have hne : (m1.number == n) = false := by
            rw [eq_of_beq hm1]
            exact beq_eq_false_iff_ne.mpr hn
          simp [Option.map, hne]
  · rw [if_neg hany]
    rw [List.find?_append]
    by_cases hn : n' = n
    · subst hn
      rw [if_pos rfl]
      have hnone : ms.find? (fun m => m.number == n') = none := by
        rw [List.find?_eq_none]
        intro m hm hcon
        exact hany (List.any_eq_true.mpr ⟨m, hm, hcon⟩)
      rw [hnone]
      simp
    · rw [if_neg hn]
      have hb : ((n == n') = false) := beq_eq_false_iff_ne.mpr (fun h => hn h.symm)
      have hnew : (([(⟨n, (if a == unlabeledMark then [] else [⟨a⟩]), dc⟩ : Magnet)]).find?
          fun m => m.number == n') = none := by
        rw [@List.find?_cons_of_neg _ (fun m => m.number == n')
          (⟨n, (if a == unlabeledMark then [] else [⟨a⟩]), dc⟩ : Magnet) []
          (by show ¬ ((n : Nat) == n') = true
              simp [hb])]
        rfl
      rw [hnew]
      cases ms.find? (fun m => m.number == n') <;> rfl

/-- Per-number processing of one bullet event (canonical form of
`recordBullet` restricted to one issue number). -/
def procNum (o : Option Magnet) (e : String × RecInfo) : Option Magnet :=
  match o with
  | none => some ⟨e.2.number, if e.1.data == unlabeledMark then [] else [⟨e.1.data⟩],
      e.2.duplicate_count⟩
  | some m => some (if e.1.data == unlabeledMark then m
      else { m with areas := m.areas ++ [⟨e.1.data⟩] })

theorem recordFold_cons (e : String × RecInfo) (evs : List (String × RecInfo))
    (ms : List Magnet) :
    recordFold (e :: evs) ms
      = recordFold evs (recordBullet e.1.data e.2.duplicate_count e.2.number ms) := rfl

theorem recordFold_find (n : Nat) :
    ∀ (evs : List (String × RecInfo)) (ms : List Magnet),
      (recordFold evs ms).find? (fun m => m.number == n)
        = (evs.filter fun e => e.2.number == n).foldl procNum
            (ms.find? fun m => m.number == n)
  | [], ms => rfl
  | e :: evs, ms => by
    rw [recordFold_cons, recordFold_find n evs _, List.filter_cons]
    by_cases he : (e.2.number == n) = true
    · rw [if_pos he, List.foldl_cons]
      have heq : e.2.number = n := eq_of_beq he
      rw [recordBullet_find e.1.data e.2.duplicate_count e.2.number n ms, if_pos heq.symm]
      congr 1
      cases hm : ms.find? (fun m => m.number == e.2.number) with
      | none =>
        rw [heq] at hm
        rw [hm]
        simp [procNum, heq]
      | some m1 =>
        rw [heq] at hm
        rw [hm]
        simp [procNum]
    · rw [if_neg (by simp [he]), recordBullet_find e.1.data e.2.duplicate_count e.2.number n ms,
        if_neg (fun h => by rw [h] at he; simp at he)]

theorem map_number_update (n : Nat) (A : List String) :
    ∀ ms : List Magnet,
      ((ms.map fun m => if m.number == n then { m with areas := m.areas ++ A } else m).map
        Magnet.number) = ms.map Magnet.number
  | [] => rfl
  | m :: ms => by
    rw [List.map_cons, List.map_cons, List.map_cons, map_number_update n A ms]
    rw [update_number]

theorem recordBullet_numbers (a : List Char) (dc n : Nat) (ms : List Magnet) :
    (recordBullet a dc n ms).map Magnet.number
      = if (ms.any fun m => m.number == n) = true then ms.map Magnet.number
        else ms.map Magnet.number ++ [n] := by
  simp only [recordBullet]
  by_cases hany : (ms.any fun m => m.number == n) = true
  · rw [if_pos hany, if_pos hany]
    by_cases hu : (a == unlabeledMark) = true
    · rw [if_pos hu]
    · rw [if_neg hu, map_number_update]
  · rw [if_neg hany, if_neg hany, List.map_append]
    rfl

theorem recordFold_numbers_nodup :
    ∀ (evs : List (String × RecInfo)) (ms : List Magnet),
      ((ms.map Magnet.number).Nodup) → ((recordFold evs ms).map Magnet.number).Nodup
  | [], _ => fun h => h
  | e :: evs, ms => fun h => by
    rw [recordFold_cons]
    apply recordFold_numbers_nodup evs
    rw [recordBullet_numbers]
    by_cases hany : (ms.any fun m => m.number == e.2.number) = true
    · rw [if_pos hany]
      exact h
    · rw [if_neg hany]
      rw [List.nodup_append]
      refine ⟨h, List.nodup_singleton _, ?_⟩
      intro x hx hx2
      rcases List.mem_singleton.mp hx2 with rfl
      obtain ⟨m, hm, hmn⟩ := List.mem_map.mp hx
      exact hany (List.any_eq_true.mpr ⟨m, hm, by rw [hmn]; exact beq_self_eq_true _⟩)

theorem recordFold_numbers_mem (n : Nat) :
    ∀ (evs : List (String × RecInfo)) (ms : List Magnet),
      (n ∈ (recordFold evs ms).map Magnet.number)
        ↔ (n ∈ ms.map Magnet.number ∨ ∃ e ∈ evs, e.2.number = n)
  | [], ms => by simp [recordFold]
  | e :: evs, ms => by
    rw [recordFold_cons, recordFold_numbers_mem n evs _, recordBullet_numbers]
    by_cases hany : (ms.any fun m => m.number == e.2.number) = true
    · rw [if_pos hany]
      constructor
      · rintro (hm | hex)
        · exact Or.inl hm
        · obtain ⟨e2, he2, hn2⟩ := hex
          exact Or.inr ⟨e2, List.mem_cons_of_mem _ he2, hn2⟩
      · rintro (hm | ⟨e2, he2, hn2⟩)
        · exact Or.inl hm
        · rcases List.mem_cons.mp he2 with rfl | he2b
          · obtain ⟨m, hm, hmn⟩ := List.any_eq_true.mp hany
            exact Or.inl (List.mem_map.mpr ⟨m, hm, by rw [eq_of_beq hmn, hn2]⟩)
          · exact Or.inr ⟨e2, he2b, hn2⟩
    · rw [if_neg hany]
      rw [List.mem_append, List.mem_singleton]
      constructor
      · rintro ((hm | hn2) | hex)
        · exact Or.inl hm
        · exact Or.inr ⟨e, List.mem_cons_self .., hn2.symm⟩
        · obtain ⟨e2, he2, hn2⟩ := hex
          exact Or.inr ⟨e2, List.mem_cons_of_mem _ he2, hn2⟩
      · rintro (hm | ⟨e2, he2, hn2⟩)
        · exact Or.inl (Or.inl hm)
        · rcases List.mem_cons.mp he2 with rfl | he2b
          · exact Or.inl (Or.inr hn2.symm)
          · exact Or.inr ⟨e2, he2b, hn2⟩

theorem find?_proj_eq_of_mem_nodup {α : Type} (f : α → Nat) :
    ∀ {l : List α} {x : α}, ((l.map f).Nodup) → x ∈ l →
      l.find? (fun y => f y == f x) = some x := by
  intro l
  induction l with
  | nil => intro x _ hx; cases hx
  | cons y0 rest ih =>
    intro x hnd hx
    rw [List.map_cons, List.nodup_cons] at hnd
    rcases List.mem_cons.mp hx with rfl | hx2
    · exact @List.find?_cons_of_pos _ (fun y => f y == f x) x rest (beq_self_eq_true _)
    · have hne : (f y0 == f x) = false := by
        refine beq_eq_false_iff_ne.mpr ?_
        intro hEq
        exact hnd.1 (hEq ▸ List.mem_map.mpr ⟨x, hx2, rfl⟩)
      rw [@List.find?_cons_of_neg _ (fun y => f y == f x) y0 rest (by simp [hne])]
      exact ih hnd.2 hx2

/-- The per-event area contribution recorded for an already-seen magnet. -/
def addlAreas (e : String × RecInfo) : List String :=
  if e.1.data == unlabeledMark then [] else [⟨e.1.data⟩]

theorem procNum_fold_some :
    ∀ (evs : List (String × RecInfo)) (m : Magnet),
      evs.foldl procNum (some m)
        = some { m with areas := m.areas ++ evs.flatMap addlAreas }
  | [], m => by simp
  | e :: evs, m => by
    rw [List.foldl_cons, List.flatMap_cons]
    show evs.foldl procNum (procNum (some m) e) = _
    by_cases hu : (e.1.data == unlabeledMark) = true
    · have hp : procNum (some m) e = some m := by
        simp [procNum, hu]
      rw [hp, procNum_fold_some evs m]
      simp [addlAreas, hu]
    · have hp : procNum (some m) e = some { m with areas := m.areas ++ [⟨e.1.data⟩] } := by
        simp [procNum, hu]
      rw [hp, procNum_fold_some evs _]
      simp [addlAreas, hu]

theorem procNum_fold_cons (e : String × RecInfo) (evs : List (String × RecInfo)) :
    (e :: evs).foldl procNum none
      = some ⟨e.2.number, addlAreas e ++ evs.flatMap addlAreas, e.2.duplicate_count⟩ := by
  rw [List.foldl_cons]
  show evs.foldl procNum (some ⟨e.2.number,
    if e.1.data == unlabeledMark then [] else [⟨e.1.data⟩], e.2.duplicate_count⟩) = _
  rw [procNum_fold_some]
  rfl

/-! ## The catalog's events for one issue number -/

theorem filter_flatMap_comm {α β : Type} (f : α → List β) (p : β → Bool) :
    ∀ l : List α, (l.flatMap f).filter p = l.flatMap fun x => (f x).filter p
  | [] => rfl
  | x :: l => by
    rw [List.flatMap_cons, List.flatMap_cons, List.filter_append, filter_flatMap_comm f p l]

theorem flatMap_if_singleton {α β : Type} (p : α → Prop) [DecidablePred p] (g : α → β) :
    ∀ l : List α,
      (l.flatMap fun x => if p x then [g x] else [])
        = (l.filter fun x => decide (p x)).map g
  | [] => rfl
  | x :: l => by
    rw [List.flatMap_cons, List.filter_cons]
    by_cases hp : p x
    · rw [if_pos hp, if_pos (decide_eq_true hp), List.map_cons,
        flatMap_if_singleton p g l]
      rfl
    · rw [if_neg hp, if_neg (by simp [hp]), flatMap_if_singleton p g l]
      rfl

theorem filter_number_eq :
    ∀ (rs : List RecInfo), ((rs.map RecInfo.number).Nodup) →
      ∀ (r : RecInfo), r ∈ rs → ∀ (p : RecInfo → Bool),
      rs.filter (fun x => (x.number == r.number) && p x) = if p r then [r] else []
  | [], _ => fun r hr _ => absurd hr (List.not_mem_nil r)
  | r0 :: rest, hids => fun r hr p => by
    rw [List.map_cons, List.nodup_cons] at hids
    rcases List.mem_cons.mp hr with rfl | hr2
    · rw [List.filter_cons]
      have hh : ((r.number == r.number) && p r) = p r := by simp
      rw [hh]
      have htail : rest.filter (fun x => (x.number == r.number) && p x) = [] := by
        rw [List.filter_eq_nil_iff]
        intro x hx hcon
        rw [Bool.and_eq_true] at hcon
        exact hids.1 (List.mem_map.mpr ⟨x, hx, eq_of_beq hcon.1⟩)
      rw [htail]
    · rw [List.filter_cons]
      have hh : ((r0.number == r.number) && p r0) = false := by
        have hm : r.number ∈ rest.map RecInfo.number := List.mem_map.mpr ⟨r, hr2, rfl⟩
        have hne : r0.number ≠ r.number := fun hEq => hids.1 (hEq ▸ hm)
        simp [beq_eq_false_iff_ne.mpr hne]
      rw [hh]
      simp only [Bool.false_eq_true, if_false]
      exact filter_number_eq rest hids.2 r hr2 p

theorem flatMap_congr {α β : Type} {f g : α → List β} :
    ∀ {l : List α}, (∀ x ∈ l, f x = g x) → l.flatMap f = l.flatMap g := by
  intro l
  induction l with
  | nil => intro _; rfl
  | cons x l ih =>
    intro h
    rw [List.flatMap_cons, List.flatMap_cons, h x (List.mem_cons_self ..),
      ih (fun y hy => h y (List.mem_cons_of_mem _ hy))]

theorem filter_map_snd (q : RecInfo → Bool) (a : String) (l : List RecInfo) :
    (l.map fun x => (a, x)).filter (fun e => q e.2) = (l.filter q).map fun x => (a, x) := by
  rw [List.filter_map]
  rfl

theorem sortedBucket_filter_number (rs : List RecInfo)
    (hids : (rs.map RecInfo.number).Nodup) (hnodA : ∀ r ∈ rs, r.areas.Nodup)
    (r : RecInfo) (hr : r ∈ rs) (a : String) :
    (sortedBucket rs a).filter (fun x => x.number == r.number)
      = if a ∈ r.areas then [r] else [] := by
  have hperm : ((sortedBucket rs a).filter (fun x => x.number == r.number)).Perm
      ((lookupBucket (by_area rs) a).filter (fun x => x.number == r.number)) :=
    (List.perm_insertionSort _ _).filter _
  rw [by_area_lookup rs a hnodA, List.filter_filter] at hperm
  rw [filter_number_eq rs hids r hr (fun x => decide (a ∈ x.areas))] at hperm
  by_cases hmem : a ∈ r.areas
  · rw [if_pos (decide_eq_true hmem)] at hperm
    rw [if_pos hmem]
    exact List.perm_singleton.mp hperm
  · rw [if_neg (by simp [hmem])] at hperm
    rw [if_neg hmem]
    exact hperm.eq_nil

theorem catalogEvents_filter (rs : List RecInfo)
    (hids : (rs.map RecInfo.number).Nodup) (hnodA : ∀ r ∈ rs, r.areas.Nodup)
    (r : RecInfo) (hr : r ∈ rs) :
    (catalogEvents rs).filter (fun e => e.2.number == r.number)
      = ((most_common (area_totals rs)).filter fun t => decide (t.1 ∈ r.areas)).map
          fun t => (t.1, r) := by
  unfold catalogEvents
  rw [filter_flatMap_comm]
  have harm : ∀ t ∈ most_common (area_totals rs),
      ((sortedBucket rs t.1).map fun x => (t.1, x)).filter (fun e => e.2.number == r.number)
        = if t.1 ∈ r.areas then [(t.1, r)] else [] := by
    intro t _
    rw [filter_map_snd (fun x => x.number == r.number) t.1 (sortedBucket rs t.1)]
    rw [sortedBucket_filter_number rs hids hnodA r hr t.1]
    by_cases hmem : t.1 ∈ r.areas
    · rw [if_pos hmem, if_pos hmem]
      rfl
    · rw [if_neg hmem, if_neg hmem]
      rfl
  rw [flatMap_congr harm]
  exact flatMap_if_singleton (fun t : String × Nat => t.1 ∈ r.areas)
    (fun t : String × Nat => (t.1, r)) _

/-- The area labels of the generated catalog's section headers, in document
order. -/
def totKeys (rs : List RecInfo) : List String :=
  (most_common (area_totals rs)).map fun t => t.1

theorem totKeys_nodup (rs : List RecInfo) : (totKeys rs).Nodup := by
  unfold totKeys most_common
  exact (List.Perm.nodup_iff ((List.perm_insertionSort _ _).map _)).mpr
    (area_totals_keys_nodup rs)

theorem totKeys_mem (rs : List RecInfo) (x : String) :
    x ∈ totKeys rs ↔ ∃ r ∈ rs, x ∈ r.areas := by
  unfold totKeys most_common
  rw [List.Perm.mem_iff ((List.perm_insertionSort _ _).map _)]
  exact area_totals_keys_mem rs x

theorem filteredKeys_perm (rs : List RecInfo) (r : RecInfo) (hr : r ∈ rs)
    (hnod : r.areas.Nodup) :
    (((most_common (area_totals rs)).filter fun t => decide (t.1 ∈ r.areas)).map
      fun t => t.1).Perm r.areas := by
  have h1 : ((totKeys rs).filter fun a => decide (a ∈ r.areas))
      = ((most_common (area_totals rs)).filter fun t => decide (t.1 ∈ r.areas)).map
          fun t => t.1 := by
    unfold totKeys
    rw [List.filter_map]
    rfl
  rw [← h1]
  refine (List.perm_ext_iff_of_nodup ((totKeys_nodup rs).filter _) hnod).mpr ?_
  intro a
  rw [List.mem_filter]
  constructor
  · rintro ⟨_, h2⟩
    exact of_decide_eq_true h2
  · intro ha
    exact ⟨(totKeys_mem rs a).mpr ⟨r, hr, ha⟩, decide_eq_true ha⟩

/-! ## Per-record closed form of the parsed catalog -/

theorem string_data_inj {s u : String} (h : s.data = u.data) : s = u := by
  cases s
  cases u
  cases h
  rfl

theorem catalogEvents_number_mem (rs : List RecInfo) (hnodA : ∀ r ∈ rs, r.areas.Nodup)
    (hane : ∀ r ∈ rs, r.areas ≠ []) (n : Nat) :
    (∃ e ∈ catalogEvents rs, e.2.number = n) ↔ ∃ r ∈ rs, r.number = n := by
  constructor
  · rintro ⟨e, he, hn⟩
    unfold catalogEvents at he
    obtain ⟨t, _, hmem⟩ := List.mem_flatMap.mp he
    obtain ⟨x, hx, rfl⟩ := List.mem_map.mp hmem
    have hxb : x ∈ lookupBucket (by_area rs) t.1 :=
      (List.perm_insertionSort _ _).mem_iff.mp hx
    rw [by_area_lookup rs t.1 hnodA] at hxb
    exact ⟨x, (List.mem_filter.mp hxb).1, hn⟩
  · rintro ⟨r, hr, rfl⟩
    obtain ⟨a, ha⟩ : ∃ a, a ∈ r.areas := by
      cases hA : r.areas with
      | nil => exact absurd hA (hane r hr)
      | cons a0 rest => exact ⟨a0, List.mem_cons_self ..⟩
    have hak : a ∈ totKeys rs := (totKeys_mem rs a).mpr ⟨r, hr, ha⟩
    unfold totKeys at hak
    obtain ⟨t, ht, hta⟩ := List.mem_map.mp hak
    refine ⟨(t.1, r), ?_, rfl⟩
    unfold catalogEvents
    refine List.mem_flatMap.mpr ⟨t, ht, ?_⟩
    refine List.mem_map.mpr ⟨r, ?_, rfl⟩
    refine (List.perm_insertionSort _ _).mem_iff.mpr ?_
    rw [by_area_lookup rs t.1 hnodA]
    refine List.mem_filter.mpr ⟨hr, ?_⟩
    rw [hta]
    exact decide_eq_true ha

theorem final_find (rs : List RecInfo)
    (hids : (rs.map RecInfo.number).Nodup) (hnodA : ∀ r ∈ rs, r.areas.Nodup)
    (r : RecInfo) (hr : r ∈ rs) :
    (recordFold (catalogEvents rs) []).find? (fun m => m.number == r.number)
      = ((((most_common (area_totals rs)).filter fun t => decide (t.1 ∈ r.areas)).map
          fun t => (t.1, r)).foldl procNum none) := by
  rw [recordFold_find r.number (catalogEvents rs) []]
  rw [catalogEvents_filter rs hids hnodA r hr]
  rfl

theorem flatMap_addlAreas_eq_map :
    ∀ (evs : List (String × RecInfo)),
      (∀ e ∈ evs, (e.1.data == unlabeledMark) = false) →
      evs.flatMap addlAreas = evs.map fun e => e.1
  | [], _ => rfl
  | e :: evs, h => by
    rw [List.flatMap_cons, List.map_cons,
      flatMap_addlAreas_eq_map evs (fun x hx => h x (List.mem_cons_of_mem _ hx))]
    have he := h e (List.mem_cons_self ..)
    have haddl : addlAreas e = [e.1] := by
      unfold addlAreas
      rw [he]
      rfl
    rw [haddl]
    rfl

theorem final_find_not_unlabeled (rs : List RecInfo)
    (hids : (rs.map RecInfo.number).Nodup) (hnodA : ∀ r ∈ rs, r.areas.Nodup)
    (r : RecInfo) (hr : r ∈ rs) (hanod : r.areas.Nodup) (hane : r.areas ≠ [])
    (hnu : "(unlabeled)" ∉ r.areas) :
    ∃ K : List String, K.Perm r.areas ∧
      (recordFold (catalogEvents rs) []).find? (fun m => m.number == r.number)
        = some ⟨r.number, K, r.duplicate_count⟩ := by
  rw [final_find rs hids hnodA r hr]
  have hKperm := filteredKeys_perm rs r hr hanod
  cases hts : (most_common (area_totals rs)).filter (fun t => decide (t.1 ∈ r.areas)) with
  | nil =>
    exfalso
    rw [hts] at hKperm
    exact hane (List.Perm.eq_nil hKperm.symm)
  | cons t0 ts1 =>
    rw [hts] at hKperm
    rw [List.map_cons, procNum_fold_cons]
    have hallnu : ∀ e ∈ ((t0 :: ts1).map fun t => (t.1, r)),
        (e.1.data == unlabeledMark) = false := by
      intro e hemem
      obtain ⟨t, htmem, rfl⟩ := List.mem_map.mp hemem
      have htf : t ∈ (most_common (area_totals rs)).filter
          (fun t => decide (t.1 ∈ r.areas)) := by
        rw [hts]
        exact htmem
      have hta : t.1 ∈ r.areas := of_decide_eq_true (List.mem_filter.mp htf).2
      refine beq_eq_false_iff_ne.mpr ?_
      intro hd
      have ht1 : t.1 = "(unlabeled)" := string_data_inj hd
      exact hnu (ht1 ▸ hta)
    refine ⟨addlAreas (t0.1, r) ++ (ts1.map fun t => (t.1, r)).flatMap addlAreas, ?_, rfl⟩
    have h0 : addlAreas (t0.1, r) = [t0.1] := by
      unfold addlAreas
      rw [hallnu (t0.1, r) (List.mem_cons_self ..)]
      rfl
    rw [h0, flatMap_addlAreas_eq_map _
      (fun x hx => hallnu x (by rw [List.map_cons]; exact List.mem_cons_of_mem _ hx))]
    rw [List.map_map]
    rw [List.map_cons] at hKperm
    exact hKperm

theorem final_find_unlabeled (rs : List RecInfo)
    (hids : (rs.map RecInfo.number).Nodup) (hnodA : ∀ r ∈ rs, r.areas.Nodup)
    (r : RecInfo) (hr : r ∈ rs) (hA : r.areas = ["(unlabeled)"]) :
    (recordFold (catalogEvents rs) []).find? (fun m => m.number == r.number)
      = some ⟨r.number, [], r.duplicate_count⟩ := by
  rw [final_find rs hids hnodA r hr]
  have hanod : r.areas.Nodup := by
    rw [hA]
    exact List.nodup_singleton _
  have hKperm := filteredKeys_perm rs r hr hanod
  have hK : (((most_common (area_totals rs)).filter fun t => decide (t.1 ∈ r.areas)).map
      fun t => t.1) = ["(unlabeled)"] := List.perm_singleton.mp (hA ▸ hKperm)
  cases hts : (most_common (area_totals rs)).filter (fun t => decide (t.1 ∈ r.areas)) with
  | nil =>
    rw [hts] at hK
    exact absurd hK (by simp)
  | cons t0 ts1 =>
    rw [hts, List.map_cons] at hK
    injection hK with h1 h2
    have h3 : ts1 = [] := List.map_eq_nil_iff.mp h2
    rw [h3, List.map_cons]
    rw [h1]
    rfl

theorem perm_map_of_proj {α β γ δ : Type} (na : α → γ) (nb : β → γ) (τ : γ → δ)
    (pa : α → δ) (pb : β → δ) {la : List α} {lb : List β}
    (hperm : (la.map na).Perm (lb.map nb))
    (ha : ∀ x ∈ la, pa x = τ (na x)) (hb : ∀ y ∈ lb, pb y = τ (nb y)) :
    (la.map pa).Perm (lb.map pb) := by
  have h1 : la.map pa = (la.map na).map τ := by
    rw [List.map_map]
    exact List.map_congr_left ha
  have h2 : lb.map pb = (lb.map nb).map τ := by
    rw [List.map_map]
    exact List.map_congr_left hb
  rw [h1, h2]
  exact hperm.map τ

/-- C9: for every list of recurring-issue records with distinct issue ids,
duplicate counts ≥ 2, the canonical issue urls of this repository and
well-formed area labels (non-empty, newline-free, `strip()`-fixed, without
duplicates within a record, and with the reserved "(unlabeled)" marker only
ever as a record's sole area), parsing (by the checker's catalog parser)
the markdown body produced by the catalog generator yields magnets with the
same issue ids, the same duplicate counts and the same area sets — records
grouped under "## (unlabeled)" come back with empty area sets — ranked
descending by duplicate count: the system can re-parse its own output. -/
theorem c9_roundtrip (rs : List RecInfo)
    (hids : (rs.map RecInfo.number).Nodup)
    (_hcnt : ∀ r ∈ rs, 2 ≤ r.duplicate_count)
    (hurl : ∀ r ∈ rs, r.url = issuesUrl r.number)
    (hane : ∀ r ∈ rs, r.areas ≠ [])
    (hnodA : ∀ r ∈ rs, r.areas.Nodup)
    (hVA : ∀ r ∈ rs, ∀ a ∈ r.areas, validArea a)
    (hunl : ∀ r ∈ rs, r.areas = ["(unlabeled)"] ∨ "(unlabeled)" ∉ r.areas) :
    ((parse_duplicate_magnets (build_markdown_body rs)).map Magnet.dupe_count).Pairwise
        (fun x y => y ≤ x)
    ∧ ((parse_duplicate_magnets (build_markdown_body rs)).map
          fun m => (m.number, m.dupe_count)).Perm
        (rs.map fun r => (r.number, r.duplicate_count))
    ∧ ∀ m ∈ parse_duplicate_magnets (build_markdown_body rs), ∃ r ∈ rs,
        m.number = r.number ∧ m.dupe_count = r.duplicate_count ∧
        ((r.areas = ["(unlabeled)"] ∧ m.areas = []) ∨ m.areas.Perm r.areas) := by
  have hparse : parse_duplicate_magnets (build_markdown_body rs)
      = List.insertionSort (fun a b => b.dupe_count ≤ a.dupe_count)
          (recordFold (catalogEvents rs) []) := by
    unfold parse_duplicate_magnets
    rw [parse_catalog_eq_recordFold rs hurl hnodA hVA]
  have hsortperm : (parse_duplicate_magnets (build_markdown_body rs)).Perm
      (recordFold (catalogEvents rs) []) := by
    rw [hparse]
    exact List.perm_insertionSort _ _
  have hfinalnodup : ((recordFold (catalogEvents rs) []).map Magnet.number).Nodup :=
    recordFold_numbers_nodup _ [] (by simp)
  have hmem_iff : ∀ n, (n ∈ (recordFold (catalogEvents rs) []).map Magnet.number)
      ↔ n ∈ rs.map RecInfo.number := by
    intro n
    rw [recordFold_numbers_mem n (catalogEvents rs) []]
    constructor
    · rintro (h | hex)
      · simp at h
      · obtain ⟨r, hr, hrn⟩ := (catalogEvents_number_mem rs hnodA hane n).mp hex
        exact List.mem_map.mpr ⟨r, hr, hrn⟩
    · intro h
      obtain ⟨r, hr, hrn⟩ := List.mem_map.mp h
      exact Or.inr ((catalogEvents_number_mem rs hnodA hane n).mpr ⟨r, hr, hrn⟩)
  have hchar : ∀ m ∈ recordFold (catalogEvents rs) [], ∃ r ∈ rs,
      m.number = r.number ∧ m.dupe_count = r.duplicate_count ∧
      ((r.areas = ["(unlabeled)"] ∧ m.areas = []) ∨ m.areas.Perm r.areas) := by
    intro m hm
    have hn : m.number ∈ (recordFold (catalogEvents rs) []).map Magnet.number :=
      List.mem_map.mpr ⟨m, hm, rfl⟩
    rw [hmem_iff] at hn
    obtain ⟨r, hr, hrn⟩ := List.mem_map.mp hn
    have hfind1 : (recordFold (catalogEvents rs) []).find? (fun x => x.number == m.number)
        = some m := find?_proj_eq_of_mem_nodup Magnet.number hfinalnodup hm
    rcases hunl r hr with hA | hnu
    · have h2 := final_find_unlabeled rs hids hnodA r hr hA
      rw [hrn] at h2
      have hmeq : m = ⟨m.number, [], r.duplicate_count⟩ :=
        Option.some.inj (hfind1.symm.trans h2)
      exact ⟨r, hr, hrn.symm, congrArg Magnet.dupe_count hmeq,
        Or.inl ⟨hA, congrArg Magnet.areas hmeq⟩⟩
    · obtain ⟨K, hKperm, h2⟩ :=
        final_find_not_unlabeled rs hids hnodA r hr (hnodA r hr) (hane r hr) hnu
      rw [hrn] at h2
      have hmeq : m = ⟨m.number, K, r.duplicate_count⟩ :=
        Option.some.inj (hfind1.symm.trans h2)
      refine ⟨r, hr, hrn.symm, congrArg Magnet.dupe_count hmeq, Or.inr ?_⟩
      have hma : m.areas = K := congrArg Magnet.areas hmeq
      rw [hma]
      exact hKperm
  refine ⟨?_, ?_, ?_⟩
  · rw [hparse]
    have hs := List.sorted_insertionSort (fun a b : Magnet => b.dupe_count ≤ a.dupe_count)
      (recordFold (catalogEvents rs) [])
    rw [List.pairwise_map]
    exact hs
  · have hnumsperm : ((recordFold (catalogEvents rs) []).map Magnet.number).Perm
        (rs.map RecInfo.number) := (List.perm_ext_iff_of_nodup hfinalnodup hids).mpr hmem_iff
    have hpairs : ((recordFold (catalogEvents rs) []).map
          fun m => (m.number, m.dupe_count)).Perm
        (rs.map fun r => (r.number, r.duplicate_count)) := by
      refine perm_map_of_proj Magnet.number RecInfo.number
        (fun n => (n, ((rs.find? fun x => x.number == n).map RecInfo.duplicate_count).getD 0))
        _ _ hnumsperm ?_ ?_
      · intro m hm
        obtain ⟨r, hr, h1, h2, _⟩ := hchar m hm
        have hfr : rs.find? (fun x => x.number == r.number) = some r :=
          find?_proj_eq_of_mem_nodup RecInfo.number hids hr
        show (m.number, m.dupe_count)
          = (m.number,
              ((rs.find? fun x => x.number == m.number).map RecInfo.duplicate_count).getD 0)
        rw [h1, h2, hfr]
        rfl
      · intro r hr
        have hfr : rs.find? (fun x => x.number == r.number) = some r :=
          find?_proj_eq_of_mem_nodup RecInfo.number hids hr
        show (r.number, r.duplicate_count)
          = (r.number,
              ((rs.find? fun x => x.number == r.number).map RecInfo.duplicate_count).getD 0)
        rw [hfr]
        rfl
    exact (hsortperm.map _).trans hpairs
  · intro m hm
    exact hchar m (hsortperm.mem_iff.mp hm)

instance validArea_decidable (a : String) : Decidable (validArea a) := by
  unfold validArea
  infer_instance

/-- A concrete record list exercising both a shared area, a multi-area
record and an unlabeled record. -/
def c9rs : List RecInfo :=
  [⟨12, issuesUrl 12, ["vim", "rust"], 7⟩,
   ⟨10, issuesUrl 10, ["rust"], 5⟩,
   ⟨11, issuesUrl 11, ["(unlabeled)"], 3⟩]

theorem c9_roundtrip_witness :
    ((c9rs.map RecInfo.number).Nodup ∧ ∀ r ∈ c9rs, 2 ≤ r.duplicate_count)
    ∧ (((parse_duplicate_magnets (build_markdown_body c9rs)).map Magnet.dupe_count).Pairwise
          (fun x y => y ≤ x)
      ∧ ((parse_duplicate_magnets (build_markdown_body c9rs)).map
            fun m => (m.number, m.dupe_count)).Perm
          (c9rs.map fun r => (r.number, r.duplicate_count))
      ∧ ∀ m ∈ parse_duplicate_magnets (build_markdown_body c9rs), ∃ r ∈ c9rs,
          m.number = r.number ∧ m.dupe_count = r.duplicate_count ∧
          ((r.areas = ["(unlabeled)"] ∧ m.areas = []) ∨ m.areas.Perm r.areas)) :=
  ⟨⟨by decide, by decide⟩,
    c9_roundtrip c9rs (by decide) (by decide) (by decide) (by decide) (by decide)
      (by decide) (by decide)⟩
